import Mathlib

/-!
Verification of the crossword-layout engine of `crossword_helper`.

The repository contains two near-duplicate revisions of the generator
(`src/unnamed/part_000`, the multi-strategy revision, and
`src/src/utils/crosswordGenerator.js`, the single-attempt revision), the
numbering utilities (`src/src/utils/numberingUtils.js`) and the load path of
`src/src/App.jsx`.  Each source function is embedded as an executable Lean
definition; grids are lists of rows of `Option Char` cells (`none` is the
JavaScript `null` empty-cell sentinel), and row/column coordinates are `Int`
because the placement search produces negative candidate coordinates that the
validator must reject.

JavaScript `Array.prototype.sort` is stable and sorts by the comparator; the
output of a stable sort is uniquely determined by the comparator and the input
order, so it is embedded as `List.insertionSort` (which is stable) with the
corresponding `≤` relation.
-/

open scoped List

/-- A grid cell: `none` is the empty-cell sentinel (JS `null`), `some ch` a letter. -/
abbrev Cell := Option Char

/-- A grid is a list of rows. -/
abbrev Grid := List (List Cell)

/-- Number of rows, `grid.length` in the source. -/
def gridHeight (g : Grid) : Nat := g.length

/-- Number of columns, `grid[0].length` in the source.  On a zero-row grid the
source's `grid[0]` is undefined and the `.length` access throws an uncaught
TypeError; this total accessor reads 0 there, a value no surviving source run
observes — theorems about runs that perform this read on a zero-row grid state
only that the row read finds no row, never what the dead code after the throw
would return. -/
def gridWidth (g : Grid) : Nat := (g.headD []).length

/-- Reading `grid[r][c]`.  Out-of-range indices read as `none`; every in-range
read performed by the source is guarded to be in range on the rectangular
grids the program constructs, so this total accessor agrees with the source. -/
def cellAt (g : Grid) (r c : Int) : Cell :=
  if 0 ≤ r ∧ 0 ≤ c then ((g[r.toNat]?).bind (fun rowCells => rowCells[c.toNat]?)).join
  else none

/-- Writing `grid[r][c] = ch`.  The source only ever writes in range; on a
rectangular grid `List.set` at an out-of-range index is a no-op. -/
def setCell (g : Grid) (r c : Int) (ch : Char) : Grid :=
  if 0 ≤ r ∧ 0 ≤ c then
    match g[r.toNat]? with
    | some rowCells => g.set r.toNat (rowCells.set c.toNat (some ch))
    | none => g
  else g

/-- All rows have length `gridWidth` — the Grid invariant of the spec's data
model, true of every grid the program builds. -/
def Rectangular (g : Grid) : Prop := ∀ rowCells ∈ g, rowCells.length = gridWidth g

instance (g : Grid) : Decidable (Rectangular g) := by
  unfold Rectangular; infer_instance

/-- Source `createEmptyGrid(width, height)`: a height × width grid of `null`s. -/
def createEmptyGrid (width height : Nat) : Grid :=
  List.replicate height (List.replicate width (none : Cell))

theorem cellAt_neg {g : Grid} {r c : Int} (h : r < 0 ∨ c < 0) : cellAt g r c = none := by
  unfold cellAt
  rw [if_neg]
  intro ⟨h1, h2⟩
  rcases h with h | h <;> omega

theorem cellAt_of_height_le {g : Grid} {r c : Int} (h : (gridHeight g : Int) ≤ r) :
    cellAt g r c = none := by
  unfold cellAt
  split
  · next hrc =>
    have hr : g.length ≤ r.toNat := by unfold gridHeight at h; omega
    simp [List.getElem?_eq_none hr]
  · rfl

theorem cellAt_of_width_le {g : Grid} (hg : Rectangular g) {r c : Int}
    (h : (gridWidth g : Int) ≤ c) : cellAt g r c = none := by
  unfold cellAt
  split
  · next hrc =>
    cases hrow : g[r.toNat]? with
    | none => simp [hrow]
    | some rowCells =>
      have hmem : rowCells ∈ g := List.getElem?_mem hrow
      have hlen : rowCells.length = gridWidth g := hg rowCells hmem
      have hc : rowCells.length ≤ c.toNat := by omega
      simp [hrow, List.getElem?_eq_none hc]
  · rfl

theorem cellAt_isSome_bounds {g : Grid} (hg : Rectangular g) {r c : Int}
    (h : (cellAt g r c).isSome) :
    0 ≤ r ∧ r < gridHeight g ∧ 0 ≤ c ∧ c < gridWidth g := by
  by_contra hcon
  push_neg at hcon
  have hnone : cellAt g r c = none := by
    rcases lt_or_le r 0 with hr | hr
    · exact cellAt_neg (Or.inl hr)
    rcases lt_or_le c 0 with hc | hc
    · exact cellAt_neg (Or.inr hc)
    rcases lt_or_le r (gridHeight g) with hr2 | hr2
    · rcases lt_or_le c (gridWidth g) with hc2 | hc2
      · exact absurd hc2 (by intro h2; exact absurd (hcon hr hr2 hc) (by omega))
      · exact cellAt_of_width_le hg hc2
    · exact cellAt_of_height_le hr2
  rw [hnone] at h
  simp at h

theorem cellAt_createEmptyGrid (width height : Nat) (r c : Int) :
    cellAt (createEmptyGrid width height) r c = none := by
  unfold cellAt createEmptyGrid
  split
  · next hrc =>
    simp only [List.getElem?_replicate]
    split <;> simp [List.getElem?_replicate]
  · rfl

theorem rectangular_createEmptyGrid (width height : Nat) :
    Rectangular (createEmptyGrid width height) := by
  intro rowCells hmem
  have h1 : rowCells = List.replicate width none := List.eq_of_mem_replicate hmem
  subst h1
  unfold gridWidth createEmptyGrid
  cases height with
  | zero => simp [createEmptyGrid] at hmem
  | succ n => simp [List.replicate_succ]

theorem gridHeight_createEmptyGrid (width height : Nat) :
    gridHeight (createEmptyGrid width height) = height := by
  simp [gridHeight, createEmptyGrid]

theorem gridWidth_createEmptyGrid (width height : Nat) (hh : 0 < height) :
    gridWidth (createEmptyGrid width height) = width := by
  unfold gridWidth createEmptyGrid
  cases height with
  | zero => omega
  | succ n => simp [List.replicate_succ]

namespace Part000

/-- Source `isValidPlacement(grid, word, row, col, isHorizontal)` of
`src/unnamed/part_000` (identical in `crosswordGenerator.js`).  The source's
early `return false`s become one conjunction of the negated tests; the
source's explicit boundary guards on neighbor reads (`r > 0 ? … : null` etc.)
are subsumed by `cellAt` reading out-of-range cells as `none`. -/
def isValidPlacement (grid : Grid) (word : List Char) (row col : Int)
    (isHorizontal : Bool) : Bool :=
  let width : Int := gridWidth grid
  let height : Int := gridHeight grid
  let len : Int := word.length
  -- Check bounds
  (if isHorizontal then
    !(decide (col < 0) || decide (col + len > width)) &&
      !(decide (row < 0) || decide (row ≥ height))
  else
    !(decide (row < 0) || decide (row + len > height)) &&
      !(decide (col < 0) || decide (col ≥ width))) &&
  -- Check for cell before word (should be empty or boundary)
  (if isHorizontal then
    !(decide (col > 0) && (cellAt grid row (col - 1)).isSome)
  else
    !(decide (row > 0) && (cellAt grid (row - 1) col).isSome)) &&
  -- Check for cell after word (should be empty or boundary)
  (if isHorizontal then
    !(decide (col + len < width) && (cellAt grid row (col + len)).isSome)
  else
    !(decide (row + len < height) && (cellAt grid (row + len) col).isSome)) &&
  -- Per-letter loop: an occupied cell must match the letter, an empty cell
  -- must have empty parallel neighbors
  (List.range word.length).all (fun i =>
    let r : Int := if isHorizontal then row else row + i
    let c : Int := if isHorizontal then col + i else col
    match cellAt grid r c with
    | some currentCell => decide (word.get? i = some currentCell)
    | none =>
      if isHorizontal then
        (cellAt grid (r - 1) c).isNone && (cellAt grid (r + 1) c).isNone
      else
        (cellAt grid r (c - 1)).isNone && (cellAt grid r (c + 1)).isNone)

end Part000

/-- Placement rule 1 of the claim: the word's full span lies within the grid
bounds for the chosen orientation. -/
def SpanInBounds (grid : Grid) (word : List Char) (row col : Int)
    (isHorizontal : Bool) : Prop :=
  if isHorizontal then
    0 ≤ row ∧ row < gridHeight grid ∧ 0 ≤ col ∧ col + word.length ≤ gridWidth grid
  else
    0 ≤ col ∧ col < gridWidth grid ∧ 0 ≤ row ∧ row + word.length ≤ gridHeight grid

/-- Placement rule 2 of the claim: the single cell immediately before the
word's start and immediately after its end along the word's axis is out of
bounds or empty (`cellAt` reads both as `none`). -/
def TerminatorsClear (grid : Grid) (word : List Char) (row col : Int)
    (isHorizontal : Bool) : Prop :=
  if isHorizontal then
    cellAt grid row (col - 1) = none ∧ cellAt grid row (col + word.length) = none
  else
    cellAt grid (row - 1) col = none ∧ cellAt grid (row + word.length) col = none

/-- Placement rule 3 of the claim: every cell the word covers is either empty
or already holds exactly the word's letter at that position. -/
def LettersCompatible (grid : Grid) (word : List Char) (row col : Int)
    (isHorizontal : Bool) : Prop :=
  ∀ i < word.length,
    cellAt grid (if isHorizontal then row else row + i)
        (if isHorizontal then col + i else col) = none ∨
      cellAt grid (if isHorizontal then row else row + i)
        (if isHorizontal then col + i else col) = word.get? i

/-- Placement rule 4 of the claim: every covered cell that is currently empty
has both perpendicular neighbor cells empty (above/below for a horizontal
word, left/right for a vertical word). -/
def ParallelCellsClear (grid : Grid) (word : List Char) (row col : Int)
    (isHorizontal : Bool) : Prop :=
  ∀ i < word.length,
    cellAt grid (if isHorizontal then row else row + i)
        (if isHorizontal then col + i else col) = none →
      if isHorizontal then
        cellAt grid (row - 1) (col + i) = none ∧ cellAt grid (row + 1) (col + i) = none
      else
        cellAt grid (row + i) (col - 1) = none ∧ cellAt grid (row + i) (col + 1) = none

theorem guard_none_iff {b : Bool} {cell : Cell} (h : b = false → cell = none) :
    (!(b && cell.isSome)) = true ↔ cell = none := by
  cases b with
  | false => simp [h rfl]
  | true => cases cell <;> simp


/-- Claim C1: `isValidPlacement` returns `true` iff the four placement rules
(bounds, terminator cells, per-letter compatibility, parallel adjacency) all
hold, on any rectangular grid. -/
theorem isValidPlacement_iff_rules (grid : Grid) (word : List Char) (row col : Int)
    (isHorizontal : Bool) (hg : Rectangular grid) :
    Part000.isValidPlacement grid word row col isHorizontal = true ↔
      (SpanInBounds grid word row col isHorizontal ∧
       TerminatorsClear grid word row col isHorizontal ∧
       LettersCompatible grid word row col isHorizontal ∧
       ParallelCellsClear grid word row col isHorizontal) := by
  have hall : ∀ f : Nat → Bool,
      ((List.range word.length).all f = true ↔ ∀ i < word.length, f i = true) := by
    intro f
    simp [List.all_eq_true, List.mem_range]
  cases isHorizontal with
  | true =>
    unfold Part000.isValidPlacement
    simp only [Bool.and_eq_true, if_true]
    have hspan_iff :
        (((!(decide (col < 0) || decide (col + (word.length : Int) > (gridWidth grid : Int)))) = true ∧
          (!(decide (row < 0) || decide (row ≥ (gridHeight grid : Int)))) = true) ↔
          SpanInBounds grid word row col true) := by
      simp only [SpanInBounds, if_true, Bool.not_eq_true', Bool.or_eq_false_iff,
        decide_eq_false_iff_not]
      omega
    have hloop_iff : SpanInBounds grid word row col true →
        (((List.range word.length).all (fun i =>
            match cellAt grid row (col + (i : Int)) with
            | some currentCell => decide (word.get? i = some currentCell)
            | none =>
              (cellAt grid (row - 1) (col + (i : Int))).isNone &&
                (cellAt grid (row + 1) (col + (i : Int))).isNone)) = true ↔
          (LettersCompatible grid word row col true ∧
            ParallelCellsClear grid word row col true)) := by
      intro _
      rw [hall]
      unfold LettersCompatible ParallelCellsClear
      simp only [if_true]
      constructor
      · intro h
        constructor
        · intro i hi
          have hfi := h i hi
          cases hcell : cellAt grid row (col + (i : Int)) with
          | some currentCell =>
            rw [hcell] at hfi
            simp only [decide_eq_true_eq] at hfi
            exact Or.inr hfi.symm
          | none => exact Or.inl rfl
        · intro i hi hnone
          have hfi := h i hi
          rw [hnone] at hfi
          simpa [Option.isNone_iff_eq_none] using hfi
      · rintro ⟨hcompat, hpar⟩ i hi
        cases hcell : cellAt grid row (col + (i : Int)) with
        | some currentCell =>
          have := hcompat i hi
          rw [hcell] at this
          simp at this ⊢
          exact this.symm
        | none =>
          have := hpar i hi hcell
          simp [Option.isNone_iff_eq_none, this]
    constructor
    · rintro ⟨⟨⟨h1, h2⟩, h3⟩, h4⟩
      have hspan := hspan_iff.1 h1
      have hbefore : cellAt grid row (col - 1) = none := by
        refine (guard_none_iff ?_).1 h2
        intro hb
        exact cellAt_neg (Or.inr (by simp at hb; omega))
      have hafter : cellAt grid row (col + (word.length : Int)) = none := by
        refine (guard_none_iff ?_).1 h3
        intro hb
        simp only [SpanInBounds, if_true] at hspan
        exact cellAt_of_width_le hg (by simp at hb; omega)
      exact ⟨hspan, by simpa [TerminatorsClear] using ⟨hbefore, hafter⟩,
        (hloop_iff hspan).1 h4⟩
    · rintro ⟨hspan, hterm, hcompat, hpar⟩
      simp only [TerminatorsClear, if_true] at hterm
      refine ⟨⟨⟨hspan_iff.2 hspan, ?_⟩, ?_⟩, (hloop_iff hspan).2 ⟨hcompat, hpar⟩⟩
      · simp [hterm.1]
      · simp [hterm.2]
  | false =>
    unfold Part000.isValidPlacement
    simp only [Bool.and_eq_true, Bool.false_eq_true, if_false]
    have hspan_iff :
        (((!(decide (row < 0) || decide (row + (word.length : Int) > (gridHeight grid : Int)))) = true ∧
          (!(decide (col < 0) || decide (col ≥ (gridWidth grid : Int)))) = true) ↔
          SpanInBounds grid word row col false) := by
      simp only [SpanInBounds, Bool.false_eq_true, if_false, Bool.not_eq_true',
        Bool.or_eq_false_iff, decide_eq_false_iff_not]
      omega
    have hloop_iff : SpanInBounds grid word row col false →
        (((List.range word.length).all (fun i =>
            match cellAt grid (row + (i : Int)) col with
            | some currentCell => decide (word.get? i = some currentCell)
            | none =>
              (cellAt grid (row + (i : Int)) (col - 1)).isNone &&
                (cellAt grid (row + (i : Int)) (col + 1)).isNone)) = true ↔
          (LettersCompatible grid word row col false ∧
            ParallelCellsClear grid word row col false)) := by
      intro _
      rw [hall]
      unfold LettersCompatible ParallelCellsClear
      simp only [Bool.false_eq_true, if_false]
      constructor
      · intro h
        constructor
        · intro i hi
          have hfi := h i hi
          cases hcell : cellAt grid (row + (i : Int)) col with
          | some currentCell =>
            rw [hcell] at hfi
            simp only [decide_eq_true_eq] at hfi
            exact Or.inr hfi.symm
          | none => exact Or.inl rfl
        · intro i hi hnone
          have hfi := h i hi
          rw [hnone] at hfi
          simpa [Option.isNone_iff_eq_none] using hfi
      · rintro ⟨hcompat, hpar⟩ i hi
        cases hcell : cellAt grid (row + (i : Int)) col with
        | some currentCell =>
          have := hcompat i hi
          rw [hcell] at this
          simp at this ⊢
          exact this.symm
        | none =>
          have := hpar i hi hcell
          simp [Option.isNone_iff_eq_none, this]
    constructor
    · rintro ⟨⟨⟨h1, h2⟩, h3⟩, h4⟩
      have hspan := hspan_iff.1 h1
      have hbefore : cellAt grid (row - 1) col = none := by
        refine (guard_none_iff ?_).1 h2
        intro hb
        exact cellAt_neg (Or.inl (by simp at hb; omega))
      have hafter : cellAt grid (row + (word.length : Int)) col = none := by
        refine (guard_none_iff ?_).1 h3
        intro hb
        simp only [SpanInBounds, Bool.false_eq_true, if_false] at hspan
        exact cellAt_of_height_le (by simp at hb; omega)
      exact ⟨hspan, by simpa [TerminatorsClear] using ⟨hbefore, hafter⟩,
        (hloop_iff hspan).1 h4⟩
    · rintro ⟨hspan, hterm, hcompat, hpar⟩
      simp only [TerminatorsClear, Bool.false_eq_true, if_false] at hterm
      refine ⟨⟨⟨hspan_iff.2 hspan, ?_⟩, ?_⟩, (hloop_iff hspan).2 ⟨hcompat, hpar⟩⟩
      · simp [hterm.1]
      · simp [hterm.2]

/-- Claim C1 witness: the theorem applied to a concrete rectangular grid. -/
theorem isValidPlacement_iff_rules_witness :
    Rectangular [[some 'A', none], [none, none]] ∧
      (Part000.isValidPlacement [[some 'A', none], [none, none]] ['A', 'B'] 0 0 true = true ↔
        (SpanInBounds [[some 'A', none], [none, none]] ['A', 'B'] 0 0 true ∧
         TerminatorsClear [[some 'A', none], [none, none]] ['A', 'B'] 0 0 true ∧
         LettersCompatible [[some 'A', none], [none, none]] ['A', 'B'] 0 0 true ∧
         ParallelCellsClear [[some 'A', none], [none, none]] ['A', 'B'] 0 0 true)) :=
  ⟨by decide, isValidPlacement_iff_rules _ _ _ _ _ (by decide)⟩

/-- A word, the JS string as a list of characters. -/
abbrev Word := List Char

/-- A committed placement `{word, row, col, isHorizontal}`. -/
structure Placement where
  word : Word
  row : Int
  col : Int
  isHorizontal : Bool
deriving DecidableEq

/-- A layout result `{grid, placements, unplacedWords}`. -/
structure LayoutResult where
  grid : Grid
  placements : List Placement
  unplacedWords : List Word
deriving DecidableEq

/-- JS `String.prototype.trim`: strip leading and trailing whitespace. -/
def trimChars (w : List Char) : List Char :=
  ((w.dropWhile Char.isWhitespace).reverse.dropWhile Char.isWhitespace).reverse

/-- The word cleaning common to both generator revisions:
`words.map(w => w.toUpperCase().trim()).filter(w => w.length > 0)`. -/
def cleanWords (words : List Word) : List Word :=
  (words.map (fun w => trimChars (w.map Char.toUpper))).filter (fun w => decide (0 < w.length))

instance : DecidableRel (fun a b : Word => b.length ≤ a.length) := fun _ _ => Nat.decLe _ _

instance : DecidableRel (fun a b : Word => a.length ≤ b.length) := fun _ _ => Nat.decLe _ _

/-- JS `sort((a, b) => b.length - a.length)`: stable sort, longest first.
JS `Array.prototype.sort` is required to be stable, and a stable sort's output
is uniquely determined by comparator and input, so `insertionSort` (stable)
embeds it. -/
def sortByLengthDesc (ws : List Word) : List Word :=
  List.insertionSort (fun a b => b.length ≤ a.length) ws

/-- JS `sort((a, b) => a.length - b.length)`: stable sort, shortest first. -/
def sortByLengthAsc (ws : List Word) : List Word :=
  List.insertionSort (fun a b => a.length ≤ b.length) ws

namespace Part000

/-- A candidate placement of the search.  The source's `distanceFromCenter` is
a JS number that is always an exact half-integer (a sum of two values with
denominator 2); the field stores TWICE that number, which is an exact integer.
Only comparisons between scores are ever observed by the program, and doubling
preserves them all; `scoreValue` below recovers the source's exact value. -/
structure Candidate where
  row : Int
  col : Int
  isHorizontal : Bool
  intersections : Nat
  distanceFromCenter : Int
deriving DecidableEq

/-- The intersection count of the source's scoring loop: how many covered
cells already hold a letter. -/
def countIntersections (grid : Grid) (word : Word) (row col : Int)
    (isHorizontal : Bool) : Nat :=
  (List.range word.length).foldl (fun intersections k =>
    let r : Int := if isHorizontal then row else row + k
    let c : Int := if isHorizontal then col + k else col
    if (cellAt grid r c).isSome then intersections + 1 else intersections) 0

/-- Twice the source's `distanceFromCenter`:
`|wordCenterRow - height/2| + |wordCenterCol - width/2|` with
`wordCenterRow/Col = row/col (+ word.length / 2)`, all multiplied by 2 so the
value is an exact integer. -/
def distanceFromCenter2 (grid : Grid) (word : Word) (row col : Int)
    (isHorizontal : Bool) : Int :=
  let twiceCenterRow : Int := gridHeight grid
  let twiceCenterCol : Int := gridWidth grid
  let twiceWordCenterRow : Int := if isHorizontal then 2 * row else 2 * row + word.length
  let twiceWordCenterCol : Int := if isHorizontal then 2 * col + word.length else 2 * col
  |twiceWordCenterRow - twiceCenterRow| + |twiceWordCenterCol - twiceCenterCol|

/-- Source `findValidPlacements(grid, word, placements, isFirstWord,
firstWordHorizontal)` of `part_000`.  The nested `for` loops become nested
folds over the same index ranges; candidates are appended in generation order
and de-duplicated by `(row, col, isHorizontal)` against the accumulator,
exactly as the source's `validPlacements.some(...)` check does. -/
def findValidPlacements (grid : Grid) (word : Word) (placements : List Placement)
    (isFirstWord : Bool) (firstWordHorizontal : Bool) : List Candidate :=
  if isFirstWord then
    if firstWordHorizontal then
      let row : Int := gridHeight grid / 2
      let col : Int := ((gridWidth grid : Int) - word.length).fdiv 2
      if isValidPlacement grid word row col true then
        [{ row := row, col := col, isHorizontal := true, intersections := 0,
           distanceFromCenter := 0 }]
      else []
    else
      let row : Int := ((gridHeight grid : Int) - word.length).fdiv 2
      let col : Int := gridWidth grid / 2
      if isValidPlacement grid word row col false then
        [{ row := row, col := col, isHorizontal := false, intersections := 0,
           distanceFromCenter := 0 }]
      else []
  else
    placements.foldl (fun acc placement =>
      (List.range word.length).foldl (fun acc (i : Nat) =>
        (List.range placement.word.length).foldl (fun acc (j : Nat) =>
          if word.get? i = placement.word.get? j then
            let isHorizontal := !placement.isHorizontal
            let row : Int := if isHorizontal then placement.row + j else placement.row - i
            let col : Int := if isHorizontal then placement.col - i else placement.col + j
            if isValidPlacement grid word row col isHorizontal then
              if acc.any (fun p =>
                  decide (p.row = row) && decide (p.col = col) &&
                    decide (p.isHorizontal = isHorizontal)) then acc
              else
                acc ++
                  [{ row := row, col := col, isHorizontal := isHorizontal,
                     intersections := countIntersections grid word row col isHorizontal,
                     distanceFromCenter := distanceFromCenter2 grid word row col isHorizontal }]
            else acc
          else acc) acc) acc) []

/-- Twice the source's `scorePlacement(placement)`; doubling preserves every
comparison the program makes. -/
def scorePlacement (placement : Candidate) : Int :=
  200 * placement.intersections - placement.distanceFromCenter

/-- The source's exact score `intersections * 100 - distanceFromCenter` as a
rational number (the stored distance is twice the source's). -/
def scoreValue (placement : Candidate) : ℚ :=
  placement.intersections * 100 - (placement.distanceFromCenter : ℚ) / 2

instance : DecidableRel (fun a b : Candidate => scorePlacement b ≤ scorePlacement a) :=
  fun _ _ => Int.decLe _ _

/-- The selection the source performs after a successful search:
`validPlacements.sort((a, b) => scorePlacement(b) - scorePlacement(a))` (a
stable sort, descending score) followed by taking element 0; `none` when the
candidate list is empty. -/
def chooseBest (validPlacements : List Candidate) : Option Candidate :=
  (List.insertionSort (fun a b => scorePlacement b ≤ scorePlacement a) validPlacements).head?

end Part000

theorem foldl_invariant {α β : Type} (P : β → Prop) (f : β → α → β) (l : List α) (init : β)
    (h0 : P init) (hstep : ∀ b a, P b → P (f b a)) : P (l.foldl f init) := by
  induction l generalizing init with
  | nil => exact h0
  | cons x xs ih => exact ih _ (hstep _ _ h0)

/-- First element of maximal score in generation order, computed recursively:
a later element displaces the current best only when its score is strictly
greater. -/
def firstMaxBy {α : Type} (score : α → Int) : List α → Option α
  | [] => none
  | c :: l =>
    match firstMaxBy score l with
    | none => some c
    | some d => if score c < score d then some d else some c

theorem firstMaxBy_eq_none_iff {α : Type} (score : α → Int) (l : List α) :
    firstMaxBy score l = none ↔ l = [] := by
  cases l with
  | nil => simp [firstMaxBy]
  | cons c t =>
    simp only [firstMaxBy]
    cases firstMaxBy score t <;> simp
    split <;> simp

theorem head?_insertionSort_firstMax {α : Type} (score : α → Int)
    [DecidableRel (fun a b : α => score b ≤ score a)] (l : List α) :
    (List.insertionSort (fun a b => score b ≤ score a) l).head? = firstMaxBy score l := by
  induction l with
  | nil => rfl
  | cons c l ih =>
    rw [List.insertionSort]
    cases hs : List.insertionSort (fun a b => score b ≤ score a) l with
    | nil =>
      rw [hs] at ih
      simp only [firstMaxBy, ← ih]
      rfl
    | cons b t =>
      rw [hs] at ih
      simp only [List.head?] at ih
      simp only [firstMaxBy, ← ih]
      rw [List.orderedInsert]
      rcases le_or_lt (score b) (score c) with hle | hlt
      · rw [if_pos hle, if_neg (by omega)]
        rfl
      · rw [if_neg (by omega), if_pos hlt]
        rfl

theorem firstMaxBy_mem_le {α : Type} (score : α → Int) (l : List α) :
    ∀ b, firstMaxBy score l = some b → b ∈ l ∧ ∀ x ∈ l, score x ≤ score b := by
  induction l with
  | nil => intro b h; simp [firstMaxBy] at h
  | cons c t ih =>
    intro b h
    simp only [firstMaxBy] at h
    cases hfm : firstMaxBy score t with
    | none =>
      rw [hfm] at h
      have hct : t = [] := (firstMaxBy_eq_none_iff score t).1 hfm
      subst hct
      simp at h
      simp [h]
    | some d =>
      rw [hfm] at h
      dsimp only at h
      obtain ⟨hdmem, hdmax⟩ := ih d hfm
      by_cases hcd : score c < score d
      · rw [if_pos hcd] at h
        cases h
        refine ⟨List.mem_cons_of_mem _ hdmem, ?_⟩
        intro x hx
        rcases List.mem_cons.1 hx with rfl | hx
        · omega
        · exact hdmax x hx
      · rw [if_neg hcd] at h
        cases h
        refine ⟨List.mem_cons_self _ _, ?_⟩
        intro x hx
        rcases List.mem_cons.1 hx with rfl | hx
        · omega
        · have := hdmax x hx
          omega

theorem find?_congr_mem {α : Type} {p q : α → Bool} {l : List α}
    (h : ∀ x ∈ l, p x = q x) : l.find? p = l.find? q := by
  induction l with
  | nil => rfl
  | cons c t ih =>
    rw [List.find?, List.find?, h c (List.mem_cons_self _ _)]
    cases q c with
    | true => rfl
    | false => exact ih (fun x hx => h x (List.mem_cons_of_mem _ hx))

theorem firstMaxBy_eq_find? {α : Type} (score : α → Int) (l : List α) :
    firstMaxBy score l =
      l.find? (fun c => l.all (fun d => decide (score d ≤ score c))) := by
  induction l with
  | nil => rfl
  | cons c t ih =>
    simp only [firstMaxBy]
    cases hfm : firstMaxBy score t with
    | none =>
      have hct : t = [] := (firstMaxBy_eq_none_iff score t).1 hfm
      subst hct
      simp [List.find?, List.all]
    | some d =>
      obtain ⟨hdmem, hdmax⟩ := firstMaxBy_mem_le score t d hfm
      dsimp only
      rw [List.find?]
      by_cases hcd : score c < score d
      · rw [if_pos hcd]
        have hpc : (c :: t).all (fun e => decide (score e ≤ score c)) = false := by
          apply Bool.eq_false_iff.2
          intro hall
          have hd := List.all_eq_true.1 hall d (List.mem_cons_of_mem _ hdmem)
          simp only [decide_eq_true_eq] at hd
          omega
        rw [hpc]
        dsimp only
        rw [hfm] at ih
        rw [ih]
        apply find?_congr_mem
        intro x hx
        cases hax : t.all (fun e => decide (score e ≤ score x)) with
        | true =>
          have hxmax : ∀ e ∈ t, score e ≤ score x := by
            intro e he
            have he2 := List.all_eq_true.1 hax e he
            simpa using he2
          have hdx : score d ≤ score x := hxmax d hdmem
          rw [List.all_cons, hax, Bool.and_true]
          symm
          simp only [decide_eq_true_eq]
          omega
        | false =>
          rw [List.all_cons, hax, Bool.and_false]
      · rw [if_neg hcd]
        have hpc : (c :: t).all (fun e => decide (score e ≤ score c)) = true := by
          simp only [List.all_eq_true, decide_eq_true_eq]
          intro e he
          rcases List.mem_cons.1 he with rfl | he
          · omega
          · have := hdmax e he
            omega
        rw [hpc]

namespace Part000

/-- The invariant carried through the candidate-collecting folds. -/
def CandInv (grid : Grid) (word : Word) (acc : List Candidate) : Prop :=
  ∀ x ∈ acc,
    isValidPlacement grid word x.row x.col x.isHorizontal = true ∧
      x.intersections = countIntersections grid word x.row x.col x.isHorizontal ∧
      x.distanceFromCenter = distanceFromCenter2 grid word x.row x.col x.isHorizontal

/-- Every candidate produced by the general (non-first-word) search branch
passed the validator and carries the computed intersection count and distance. -/
theorem mem_findValidPlacements_general {grid : Grid} {word : Word}
    {placements : List Placement} {firstWordHorizontal : Bool} {c : Candidate}
    (hc : c ∈ findValidPlacements grid word placements false firstWordHorizontal) :
    isValidPlacement grid word c.row c.col c.isHorizontal = true ∧
      c.intersections = countIntersections grid word c.row c.col c.isHorizontal ∧
      c.distanceFromCenter = distanceFromCenter2 grid word c.row c.col c.isHorizontal := by
  unfold findValidPlacements at hc
  rw [if_neg (by simp)] at hc
  refine foldl_invariant (CandInv grid word) _ placements [] (by simp [CandInv]) ?_ c hc
  intro acc placement hacc
  refine foldl_invariant (CandInv grid word) _ (List.range word.length) acc hacc ?_
  intro acc2 i hacc2
  refine foldl_invariant (CandInv grid word) _ (List.range placement.word.length) acc2 hacc2 ?_
  intro acc3 j hacc3
  dsimp only
  repeat' split
  all_goals
    first
    | exact hacc3
    | (intro x hx
       rcases List.mem_append.1 hx with hx2 | hx2
       · exact hacc3 x hx2
       · rcases List.mem_singleton.1 hx2 with rfl
         exact ⟨by assumption, rfl, rfl⟩)

/-- Every candidate produced by the search passed the validator. -/
theorem mem_findValidPlacements_valid {grid : Grid} {word : Word}
    {placements : List Placement} {isFirstWord firstWordHorizontal : Bool} {c : Candidate}
    (hc : c ∈ findValidPlacements grid word placements isFirstWord firstWordHorizontal) :
    isValidPlacement grid word c.row c.col c.isHorizontal = true := by
  cases isFirstWord with
  | false => exact (mem_findValidPlacements_general hc).1
  | true =>
    unfold findValidPlacements at hc
    rw [if_pos rfl] at hc
    cases firstWordHorizontal with
    | true =>
      rw [if_pos rfl] at hc
      dsimp only at hc
      split at hc
      · next hvalid =>
        rcases List.mem_singleton.1 hc with rfl
        exact hvalid
      · simp at hc
    | false =>
      rw [if_neg (by simp)] at hc
      dsimp only at hc
      split at hc
      · next hvalid =>
        rcases List.mem_singleton.1 hc with rfl
        exact hvalid
      · simp at hc

theorem chooseBest_eq_firstMax (l : List Candidate) :
    chooseBest l = firstMaxBy scorePlacement l :=
  head?_insertionSort_firstMax scorePlacement l

/-- Doubling the score preserves comparisons: the stored integer score orders
candidates exactly as the source's rational `intersections * 100 -
distanceFromCenter` does. -/
theorem scoreValue_le_iff (a b : Candidate) :
    scoreValue a ≤ scoreValue b ↔ scorePlacement a ≤ scorePlacement b := by
  unfold scoreValue scorePlacement
  constructor
  · intro h
    have h2 : ((200 * (a.intersections : Int) - a.distanceFromCenter : Int) : ℚ) ≤
        ((200 * (b.intersections : Int) - b.distanceFromCenter : Int) : ℚ) := by
      push_cast
      linarith
    exact_mod_cast h2
  · intro h
    have h2 : ((200 * (a.intersections : Int) - a.distanceFromCenter : Int) : ℚ) ≤
        ((200 * (b.intersections : Int) - b.distanceFromCenter : Int) : ℚ) := by
      exact_mod_cast h
    push_cast at h2
    linarith

end Part000

/-- Claim C4: when the Layout Builder commits a placement for a word, the
committed candidate is a valid candidate (it passed `isValidPlacement`), it
maximizes `score = intersections * 100 - distanceFromCenter` over the
candidate list, and it is the first candidate in generation order attaining
that maximal score (`find?` of the score-dominating predicate). -/
theorem chooseBest_is_first_max_scoring (grid : Grid) (word : Word)
    (placements : List Placement) (isFirstWord firstWordHorizontal : Bool)
    (cands : List Part000.Candidate) (best : Part000.Candidate)
    (hc : cands = Part000.findValidPlacements grid word placements isFirstWord firstWordHorizontal)
    (hb : Part000.chooseBest cands = some best) :
    best ∈ cands ∧
      Part000.isValidPlacement grid word best.row best.col best.isHorizontal = true ∧
      cands.find? (fun c => cands.all (fun d =>
        decide (Part000.scoreValue d ≤ Part000.scoreValue c))) = some best := by
  rw [Part000.chooseBest_eq_firstMax] at hb
  obtain ⟨hmem, hmax⟩ := firstMaxBy_mem_le Part000.scorePlacement cands best hb
  refine ⟨hmem, ?_, ?_⟩
  · exact Part000.mem_findValidPlacements_valid (hc ▸ hmem)
  · rw [← hb, firstMaxBy_eq_find?]
    apply find?_congr_mem
    intro x hx
    apply Bool.eq_iff_iff.2
    simp only [List.all_eq_true, decide_eq_true_eq]
    constructor
    · intro h d hd
      exact (Part000.scoreValue_le_iff d x).1 (h d hd)
    · intro h d hd
      exact (Part000.scoreValue_le_iff d x).2 (h d hd)

/-- Claim C4 witness: a concrete grid holding "AB" with the word "CA" crossed
at its letter A; the single valid candidate is committed and satisfies the
characterization. -/
theorem chooseBest_is_first_max_scoring_witness :
    ([(⟨0, 0, false, 1, 4⟩ : Part000.Candidate)] =
      Part000.findValidPlacements
        [[none, none, none], [some 'A', some 'B', none], [none, none, none]]
        ['C', 'A'] [⟨['A', 'B'], 1, 0, true⟩] false true) ∧
    ((⟨0, 0, false, 1, 4⟩ : Part000.Candidate) ∈ [(⟨0, 0, false, 1, 4⟩ : Part000.Candidate)] ∧
      Part000.isValidPlacement
        [[none, none, none], [some 'A', some 'B', none], [none, none, none]]
        ['C', 'A'] 0 0 false = true ∧
      [(⟨0, 0, false, 1, 4⟩ : Part000.Candidate)].find? (fun c =>
        [(⟨0, 0, false, 1, 4⟩ : Part000.Candidate)].all (fun d =>
          decide (Part000.scoreValue d ≤ Part000.scoreValue c))) =
        some ⟨0, 0, false, 1, 4⟩) :=
  ⟨by decide,
    chooseBest_is_first_max_scoring
      [[none, none, none], [some 'A', some 'B', none], [none, none, none]]
      ['C', 'A'] [⟨['A', 'B'], 1, 0, true⟩] false true
      [⟨0, 0, false, 1, 4⟩] ⟨0, 0, false, 1, 4⟩ (by decide) (by decide)⟩

/-- Source `placeWord(grid, word, row, col, isHorizontal)` (identical in both
revisions): copy the grid and write each letter along the axis. -/
def placeWord (grid : Grid) (word : Word) (row col : Int) (isHorizontal : Bool) : Grid :=
  word.enum.foldl (fun newGrid ic =>
    let r : Int := if isHorizontal then row else row + ic.1
    let c : Int := if isHorizontal then col + ic.1 else col
    setCell newGrid r c ic.2) grid

namespace Part000

/-- The loop body of `attemptPlacement`'s first pass: search, defer the word
when no candidate exists, otherwise sort by score and commit the best. -/
def passOneStep (firstWordHorizontal : Bool) (st : LayoutResult) (word : Word) :
    LayoutResult :=
  let isFirstWord := st.placements.isEmpty
  let validPlacements := findValidPlacements st.grid word st.placements isFirstWord
    firstWordHorizontal
  match chooseBest validPlacements with
  | none => { st with unplacedWords := st.unplacedWords ++ [word] }
  | some best =>
    { grid := placeWord st.grid word best.row best.col best.isHorizontal
      placements := st.placements ++ [⟨word, best.row, best.col, best.isHorizontal⟩]
      unplacedWords := st.unplacedWords }

/-- First pass of `attemptPlacement`: fold the step over the word list,
starting from a fresh empty grid. -/
def passOne (words : List Word) (width height : Nat) (firstWordHorizontal : Bool) :
    LayoutResult :=
  words.foldl (passOneStep firstWordHorizontal) ⟨createEmptyGrid width height, [], []⟩

/-- The loop body of a retry sweep.  The source calls
`findValidPlacements(grid, word, placements)`, whose JS default arguments are
`isFirstWord = false, firstWordHorizontal = true`.  The `Bool` component is
the sweep's `madeProgress` flag. -/
def retryStep (st : LayoutResult × Bool) (word : Word) : LayoutResult × Bool :=
  let validPlacements := findValidPlacements st.1.grid word st.1.placements false true
  match chooseBest validPlacements with
  | none => (⟨st.1.grid, st.1.placements, st.1.unplacedWords ++ [word]⟩, st.2)
  | some best =>
    (⟨placeWord st.1.grid word best.row best.col best.isHorizontal,
      st.1.placements ++ [⟨word, best.row, best.col, best.isHorizontal⟩],
      st.1.unplacedWords⟩, true)

/-- One sweep over the still-unplaced words (`stillUnplaced` starts empty,
`madeProgress` starts false). -/
def retrySweep (grid : Grid) (placements : List Placement) (unplaced : List Word) :
    LayoutResult × Bool :=
  unplaced.foldl retryStep (⟨grid, placements, []⟩, false)

/-- The source's `while (madeProgress && unplacedWords.length > 0)` loop.  A
sweep that makes progress strictly shrinks the unplaced list, so the loop runs
at most `unplaced.length` times; the fuel argument is set to that bound by
`attemptPlacement`, making this structurally recursive version exactly the
while loop. -/
def retryLoop : Nat → Grid → List Placement → List Word → LayoutResult
  | 0, grid, placements, unplaced => ⟨grid, placements, unplaced⟩
  | fuel + 1, grid, placements, unplaced =>
    if unplaced.isEmpty then ⟨grid, placements, unplaced⟩
    else
      let out := retrySweep grid placements unplaced
      if out.2 then retryLoop fuel out.1.grid out.1.placements out.1.unplacedWords
      else out.1

/-- Source `attemptPlacement(words, width, height, firstWordHorizontal)` of
`part_000`: pass 1 over the given order, then retry passes to a fixed point. -/
def attemptPlacement (words : List Word) (width height : Nat)
    (firstWordHorizontal : Bool) : LayoutResult :=
  let p1 := passOne words width height firstWordHorizontal
  retryLoop p1.unplacedWords.length p1.grid p1.placements p1.unplacedWords

/-- The words of a layout result: committed placements followed by unplaced
words. -/
def resultWords (r : LayoutResult) : List Word :=
  r.placements.map (fun p => p.word) ++ r.unplacedWords

theorem resultWords_passOneStep (firstWordHorizontal : Bool) (st : LayoutResult)
    (word : Word) :
    resultWords (passOneStep firstWordHorizontal st word) ~ resultWords st ++ [word] := by
  unfold passOneStep resultWords
  cases hcb : chooseBest (findValidPlacements st.grid word st.placements
      st.placements.isEmpty firstWordHorizontal) with
  | none =>
    dsimp only
    rw [hcb]
    simp [List.append_assoc]
  | some best =>
    dsimp only
    rw [hcb]
    dsimp only
    rw [List.map_append]
    calc (st.placements.map (fun p => p.word) ++ [word]) ++ st.unplacedWords
        = st.placements.map (fun p => p.word) ++ (word :: st.unplacedWords) := by simp
      _ ~ word :: (st.placements.map (fun p => p.word) ++ st.unplacedWords) :=
        @List.perm_middle _ word (st.placements.map (fun p : Placement => p.word))
          st.unplacedWords
      _ ~ (st.placements.map (fun p => p.word) ++ st.unplacedWords) ++ [word] := by
        simpa using (@List.perm_middle _ word
          (st.placements.map (fun p : Placement => p.word) ++ st.unplacedWords) []).symm

end Part000

namespace Part000

theorem resultWords_passOne_fold (words : List Word) (firstWordHorizontal : Bool) :
    ∀ st : LayoutResult,
      resultWords (words.foldl (passOneStep firstWordHorizontal) st) ~
        resultWords st ++ words := by
  induction words with
  | nil => intro st; simp
  | cons w ws ih =>
    intro st
    rw [List.foldl_cons]
    refine (ih (passOneStep firstWordHorizontal st w)).trans ?_
    refine ((resultWords_passOneStep firstWordHorizontal st w).append_right ws).trans ?_
    simp

theorem resultWords_retryStep (st : LayoutResult × Bool) (word : Word) :
    resultWords (retryStep st word).1 ~ resultWords st.1 ++ [word] := by
  unfold retryStep resultWords
  cases hcb : chooseBest (findValidPlacements st.1.grid word st.1.placements false true) with
  | none =>
    dsimp only
    rw [hcb]
    simp [List.append_assoc]
  | some best =>
    dsimp only
    rw [hcb]
    dsimp only
    rw [List.map_append]
    calc (st.1.placements.map (fun p => p.word) ++ [word]) ++ st.1.unplacedWords
        = st.1.placements.map (fun p => p.word) ++ (word :: st.1.unplacedWords) := by simp
      _ ~ word :: (st.1.placements.map (fun p => p.word) ++ st.1.unplacedWords) :=
        @List.perm_middle _ word (st.1.placements.map (fun p : Placement => p.word))
          st.1.unplacedWords
      _ ~ (st.1.placements.map (fun p => p.word) ++ st.1.unplacedWords) ++ [word] := by
        simpa using (@List.perm_middle _ word
          (st.1.placements.map (fun p : Placement => p.word) ++ st.1.unplacedWords) []).symm

theorem resultWords_retry_fold (unplaced : List Word) :
    ∀ st : LayoutResult × Bool,
      resultWords (unplaced.foldl retryStep st).1 ~ resultWords st.1 ++ unplaced := by
  induction unplaced with
  | nil => intro st; simp
  | cons w ws ih =>
    intro st
    rw [List.foldl_cons]
    refine (ih (retryStep st w)).trans ?_
    refine ((resultWords_retryStep st w).append_right ws).trans ?_
    simp

theorem resultWords_retrySweep (grid : Grid) (placements : List Placement)
    (unplaced : List Word) :
    resultWords (retrySweep grid placements unplaced).1 ~
      resultWords ⟨grid, placements, unplaced⟩ := by
  refine (resultWords_retry_fold unplaced (⟨grid, placements, []⟩, false)).trans ?_
  simp [resultWords]

theorem resultWords_retryLoop (fuel : Nat) :
    ∀ (grid : Grid) (placements : List Placement) (unplaced : List Word),
      resultWords (retryLoop fuel grid placements unplaced) ~
        resultWords ⟨grid, placements, unplaced⟩ := by
  induction fuel with
  | zero => intro grid placements unplaced; rfl
  | succ fuel ih =>
    intro grid placements unplaced
    rw [retryLoop]
    split
    · rfl
    · dsimp only
      split
      · exact (ih _ _ _).trans (resultWords_retrySweep grid placements unplaced)
      · exact resultWords_retrySweep grid placements unplaced

/-- Partition invariant of one Layout Builder attempt: the committed words
followed by the unplaced words are a permutation of the attempt's input. -/
theorem resultWords_attemptPlacement (words : List Word) (width height : Nat)
    (firstWordHorizontal : Bool) :
    resultWords (attemptPlacement words width height firstWordHorizontal) ~ words := by
  unfold attemptPlacement
  refine (resultWords_retryLoop _ _ _ _).trans ?_
  have h1 := resultWords_passOne_fold words firstWordHorizontal
    ⟨createEmptyGrid width height, [], []⟩
  unfold passOne
  exact h1.trans (by simp [resultWords])

theorem attemptPlacement_length (words : List Word) (width height : Nat)
    (firstWordHorizontal : Bool) :
    (attemptPlacement words width height firstWordHorizontal).placements.length +
      (attemptPlacement words width height firstWordHorizontal).unplacedWords.length =
      words.length := by
  have h := (resultWords_attemptPlacement words width height firstWordHorizontal).length_eq
  simpa [resultWords] using h

end Part000

/-- The swap `[result[i], result[j]] = [result[j], result[i]]` of Fisher-Yates
(both indices are always in range in the source). -/
def swapIdx {α : Type} (l : List α) (i j : Nat) : List α :=
  match l[i]?, l[j]? with
  | some a, some b => (l.set i b).set j a
  | _, _ => l

theorem cons_set_perm {α : Type} (a : α) :
    ∀ (l : List α) (j : Nat) (b : α), l[j]? = some b → b :: l.set j a ~ a :: l := by
  intro l
  induction l with
  | nil => intro j b h; simp at h
  | cons x t ih =>
    intro j b h
    cases j with
    | zero =>
      simp at h
      rcases h with rfl
      exact List.Perm.swap a x t
    | succ m =>
      simp at h
      calc b :: x :: t.set m a
          ~ x :: b :: t.set m a := List.Perm.swap x b _
        _ ~ x :: (a :: t) := (ih m b h).cons x
        _ ~ a :: x :: t := List.Perm.swap a x t

theorem set_set_perm {α : Type} :
    ∀ (l : List α) (i j : Nat) (a b : α), l[i]? = some a → l[j]? = some b →
      (l.set i b).set j a ~ l := by
  intro l
  induction l with
  | nil => intro i j a b h1 h2; simp at h1
  | cons x t ih =>
    intro i j a b h1 h2
    cases i with
    | zero =>
      simp at h1
      rcases h1 with rfl
      cases j with
      | zero =>
        simp at h2
        rcases h2 with rfl
        simp
      | succ m =>
        simp at h2
        simpa using cons_set_perm x t m b h2
    | succ n =>
      simp at h1
      cases j with
      | zero =>
        simp at h2
        rcases h2 with rfl
        simpa using cons_set_perm x t n a h1
      | succ m =>
        simp at h2
        simpa using ((ih n m a b h1 h2).cons x)

theorem swapIdx_perm {α : Type} (l : List α) (i j : Nat) : swapIdx l i j ~ l := by
  unfold swapIdx
  cases h1 : l[i]? with
  | none => rfl
  | some a =>
    cases h2 : l[j]? with
    | none => rfl
    | some b => exact set_set_perm l i j a b h1 h2

/-- The loop of the source's Fisher-Yates `shuffle`: the counter is the loop
index `i` (counting down to 1), and `rand i % (i + 1)` models
`Math.floor(Math.random() * (i + 1))`, which is some value in `[0, i]`. -/
def shuffleGo {α : Type} (rand : Nat → Nat) : Nat → List α → List α
  | 0, result => result
  | i + 1, result => shuffleGo rand i (swapIdx result (i + 1) (rand (i + 1) % (i + 2)))

/-- Source `shuffle(array)` (Fisher-Yates), with the stream of
`Math.random()` draws supplied as an oracle. -/
def shuffle {α : Type} (rand : Nat → Nat) (array : List α) : List α :=
  shuffleGo rand (array.length - 1) array

theorem shuffleGo_perm {α : Type} (rand : Nat → Nat) :
    ∀ (n : Nat) (l : List α), shuffleGo rand n l ~ l := by
  intro n
  induction n with
  | zero => intro l; rfl
  | succ i ih =>
    intro l
    rw [shuffleGo]
    exact (ih _).trans (swapIdx_perm l (i + 1) _)

theorem shuffle_perm {α : Type} (rand : Nat → Nat) (l : List α) :
    shuffle rand l ~ l :=
  shuffleGo_perm rand _ l

namespace Part000

/-- Strategies 5-8 of `generateCrossword`: four rounds of a shuffled order,
each tried horizontally then vertically, keeping the strictly better result
and returning as soon as the best result has no unplaced words.  The counter
counts remaining rounds (the source's loop index `i` is `4 - counter`); the
second component returned is the trace of attempt results in execution order,
kept so that theorems can speak about which attempts ran. -/
def shuffleLoop (cleanedWords : List Word) (width height : Nat)
    (rand : Nat → Nat → Nat) :
    Nat → LayoutResult → List LayoutResult → LayoutResult × List LayoutResult
  | 0, bestResult, trace => (bestResult, trace)
  | n + 1, bestResult, trace =>
    let shuffled := shuffle (rand (4 - (n + 1))) cleanedWords
    let resultH := attemptPlacement shuffled width height true
    let best1 := if bestResult.placements.length < resultH.placements.length then resultH
      else bestResult
    if best1.unplacedWords.isEmpty then (best1, trace ++ [resultH])
    else
      let resultV := attemptPlacement shuffled width height false
      let best2 := if best1.placements.length < resultV.placements.length then resultV
        else best1
      if best2.unplacedWords.isEmpty then (best2, trace ++ [resultH, resultV])
      else shuffleLoop cleanedWords width height rand n best2 (trace ++ [resultH, resultV])

/-- Source `generateCrossword(words, width, height)` of `part_000`, with the
random draws of the four shuffles supplied as an oracle (`rand i k` is the
`k`-th draw of round `i`), instrumented with the trace of attempt results in
execution order.  The returned value is the first component; the trace exists
only so that the fixed strategy order and the early returns are provable
facts about this definition. -/
def generateCrosswordTrace (words : List Word) (width height : Nat)
    (rand : Nat → Nat → Nat) : LayoutResult × List LayoutResult :=
  let cleanedWords := cleanWords words
  let sortedByLength := sortByLengthDesc cleanedWords
  -- Strategy 1: longest first, horizontal start
  let result1 := attemptPlacement sortedByLength width height true
  let bestResult := result1
  if bestResult.unplacedWords.isEmpty then (bestResult, [result1])
  else
    -- Strategy 2: longest first, vertical start
    let result2 := attemptPlacement sortedByLength width height false
    let bestResult := if bestResult.placements.length < result2.placements.length
      then result2 else bestResult
    if bestResult.unplacedWords.isEmpty then (bestResult, [result1, result2])
    else
      -- Strategies 3-4: shortest first (no early-return check after either)
      let sortedByLengthAsc := sortByLengthAsc cleanedWords
      let result3 := attemptPlacement sortedByLengthAsc width height true
      let bestResult := if bestResult.placements.length < result3.placements.length
        then result3 else bestResult
      let result4 := attemptPlacement sortedByLengthAsc width height false
      let bestResult := if bestResult.placements.length < result4.placements.length
        then result4 else bestResult
      shuffleLoop cleanedWords width height rand 4 bestResult
        [result1, result2, result3, result4]

/-- Source `generateCrossword`: the value the caller receives. -/
def generateCrossword (words : List Word) (width height : Nat)
    (rand : Nat → Nat → Nat) : LayoutResult :=
  (generateCrosswordTrace words width height rand).1

theorem perm_ite {c : Prop} [Decidable c] {a b : LayoutResult} {ws : List Word}
    (ha : resultWords a ~ ws) (hb : resultWords b ~ ws) :
    resultWords (if c then a else b) ~ ws := by
  split <;> assumption

theorem perm_ite_pair {c : Prop} [Decidable c] {x y : LayoutResult × List LayoutResult}
    {ws : List Word} (hx : resultWords x.1 ~ ws) (hy : resultWords y.1 ~ ws) :
    resultWords (if c then x else y).1 ~ ws := by
  split <;> assumption

theorem resultWords_shuffleLoop (cleanedWords : List Word) (width height : Nat)
    (rand : Nat → Nat → Nat) :
    ∀ (n : Nat) (best : LayoutResult) (trace : List LayoutResult),
      resultWords best ~ cleanedWords →
      resultWords (shuffleLoop cleanedWords width height rand n best trace).1 ~
        cleanedWords := by
  intro n
  induction n with
  | zero => intro best trace hb; exact hb
  | succ n ih =>
    intro best trace hb
    rw [shuffleLoop]
    dsimp only
    have hH : resultWords (attemptPlacement (shuffle (rand (4 - (n + 1))) cleanedWords)
        width height true) ~ cleanedWords :=
      (resultWords_attemptPlacement _ _ _ _).trans (shuffle_perm _ _)
    have hV : resultWords (attemptPlacement (shuffle (rand (4 - (n + 1))) cleanedWords)
        width height false) ~ cleanedWords :=
      (resultWords_attemptPlacement _ _ _ _).trans (shuffle_perm _ _)
    exact perm_ite_pair (perm_ite hH hb)
      (perm_ite_pair (perm_ite hV (perm_ite hH hb))
        (ih _ _ (perm_ite hV (perm_ite hH hb))))

/-- Partition invariant of the whole orchestrator: the returned result's
committed words followed by its unplaced words are a permutation of the
cleaned input words, whatever the random draws were. -/
theorem resultWords_generateCrossword (words : List Word) (width height : Nat)
    (rand : Nat → Nat → Nat) :
    resultWords (generateCrossword words width height rand) ~ cleanWords words := by
  unfold generateCrossword generateCrosswordTrace
  dsimp only
  have h1 : resultWords (attemptPlacement (sortByLengthDesc (cleanWords words))
      width height true) ~ cleanWords words :=
    (resultWords_attemptPlacement _ _ _ _).trans (List.perm_insertionSort _ _)
  have h2 : resultWords (attemptPlacement (sortByLengthDesc (cleanWords words))
      width height false) ~ cleanWords words :=
    (resultWords_attemptPlacement _ _ _ _).trans (List.perm_insertionSort _ _)
  have h3 : resultWords (attemptPlacement (sortByLengthAsc (cleanWords words))
      width height true) ~ cleanWords words :=
    (resultWords_attemptPlacement _ _ _ _).trans (List.perm_insertionSort _ _)
  have h4 : resultWords (attemptPlacement (sortByLengthAsc (cleanWords words))
      width height false) ~ cleanWords words :=
    (resultWords_attemptPlacement _ _ _ _).trans (List.perm_insertionSort _ _)
  exact perm_ite_pair h1
    (perm_ite_pair (perm_ite h2 h1)
      (resultWords_shuffleLoop _ _ _ _ 4 _ _
        (perm_ite h4 (perm_ite h3 (perm_ite h2 h1)))))

end Part000

/-- Claim C2 counterexample: the input `["AB", "ab"]` is duplicate-free as
given, both entries normalize to `AB`, and the generator places `AB` twice,
so a normalized input word does not appear exactly once in
`placements ∪ unplacedWords`. -/
theorem generateCrossword_duplicate_after_normalization :
    [['A','B'], ['a','b']].Nodup ∧
      cleanWords [['A','B'], ['a','b']] = [['A','B'], ['A','B']] ∧
      ((Part000.generateCrossword [['A','B'], ['a','b']] 3 3 (fun _ _ => 0)).placements.map
        (fun p => p.word)).count ['A','B'] = 2 := by
  decide

/-- Claim C2, as amended: for every input whose NORMALIZED word list is
duplicate-free (the UI guarantees this), and any dimensions and random draws,
the result partitions the normalized input: placements words followed by
unplaced words are a permutation of the cleaned input with no duplicates (so
each cleaned word appears exactly once, in exactly one of the two lists), the
union of the two word sets is the cleaned input word set, and no word is in
both. -/
theorem generateCrossword_partitions_input (words : List Word) (width height : Nat)
    (rand : Nat → Nat → Nat) (hW : 0 < width) (hH : 0 < height)
    (hnd : (cleanWords words).Nodup) :
    Part000.resultWords (Part000.generateCrossword words width height rand) ~
        cleanWords words ∧
      (Part000.resultWords (Part000.generateCrossword words width height rand)).Nodup ∧
      (∀ w, w ∈ cleanWords words ↔
        (w ∈ (Part000.generateCrossword words width height rand).placements.map
            (fun p => p.word) ∨
          w ∈ (Part000.generateCrossword words width height rand).unplacedWords)) ∧
      (∀ w ∈ (Part000.generateCrossword words width height rand).placements.map
          (fun p => p.word),
        w ∉ (Part000.generateCrossword words width height rand).unplacedWords) := by
  have hperm := Part000.resultWords_generateCrossword words width height rand
  have hnodup : (Part000.resultWords
      (Part000.generateCrossword words width height rand)).Nodup :=
    hperm.nodup_iff.2 hnd
  refine ⟨hperm, hnodup, ?_, ?_⟩
  · intro w
    rw [← List.mem_append]
    exact (hperm.mem_iff).symm
  · intro w hw hw2
    have hd := List.disjoint_of_nodup_append hnodup
    exact hd hw hw2

/-- Claim C2 witness: a concrete duplicate-free normalized input. -/
theorem generateCrossword_partitions_input_witness :
    0 < 3 ∧ (cleanWords [['A','B'], ['C','D']]).Nodup ∧
      (Part000.resultWords (Part000.generateCrossword [['A','B'], ['C','D']] 3 3
          (fun _ _ => 0)) ~ cleanWords [['A','B'], ['C','D']] ∧
        (Part000.resultWords (Part000.generateCrossword [['A','B'], ['C','D']] 3 3
          (fun _ _ => 0))).Nodup ∧
        (∀ w, w ∈ cleanWords [['A','B'], ['C','D']] ↔
          (w ∈ (Part000.generateCrossword [['A','B'], ['C','D']] 3 3
              (fun _ _ => 0)).placements.map (fun p => p.word) ∨
            w ∈ (Part000.generateCrossword [['A','B'], ['C','D']] 3 3
              (fun _ _ => 0)).unplacedWords)) ∧
        (∀ w ∈ (Part000.generateCrossword [['A','B'], ['C','D']] 3 3
            (fun _ _ => 0)).placements.map (fun p => p.word),
          w ∉ (Part000.generateCrossword [['A','B'], ['C','D']] 3 3
            (fun _ _ => 0)).unplacedWords)) :=
  ⟨by decide, by decide,
    generateCrossword_partitions_input [['A','B'], ['C','D']] 3 3 (fun _ _ => 0)
      (by decide) (by decide) (by decide)⟩

namespace Part000

theorem attemptPlacement_le_length (words : List Word) (width height : Nat)
    (firstWordHorizontal : Bool) :
    (attemptPlacement words width height firstWordHorizontal).placements.length ≤
      words.length := by
  have := attemptPlacement_length words width height firstWordHorizontal
  omega

theorem attemptPlacement_full_length (words : List Word) (width height : Nat)
    (firstWordHorizontal : Bool)
    (hfull : (attemptPlacement words width height firstWordHorizontal).unplacedWords = []) :
    (attemptPlacement words width height firstWordHorizontal).placements.length =
      words.length := by
  have := attemptPlacement_length words width height firstWordHorizontal
  rw [hfull] at this
  simpa using this

theorem attemptPlacement_notfull_length (words : List Word) (width height : Nat)
    (firstWordHorizontal : Bool)
    (hne : (attemptPlacement words width height firstWordHorizontal).unplacedWords ≠ []) :
    (attemptPlacement words width height firstWordHorizontal).placements.length <
      words.length := by
  have hsum := attemptPlacement_length words width height firstWordHorizontal
  have hpos : 0 <
      (attemptPlacement words width height firstWordHorizontal).unplacedWords.length :=
    List.length_pos.2 hne
  omega

theorem length_sortByLengthDesc (ws : List Word) :
    (sortByLengthDesc ws).length = ws.length :=
  (List.perm_insertionSort _ ws).length_eq

theorem length_sortByLengthAsc (ws : List Word) :
    (sortByLengthAsc ws).length = ws.length :=
  (List.perm_insertionSort _ ws).length_eq

theorem length_shuffle {α : Type} (rand : Nat → Nat) (l : List α) :
    (shuffle rand l).length = l.length :=
  (shuffle_perm rand l).length_eq

/-- When the best result so far already places every word, the next shuffled
round runs one more horizontal attempt (which cannot strictly beat it),
notices the best result is complete, and returns. -/
theorem shuffleLoop_stops (cleanedWords : List Word) (width height : Nat)
    (rand : Nat → Nat → Nat) (n : Nat) (best : LayoutResult) (trace : List LayoutResult)
    (hfull : best.unplacedWords = [])
    (hbest : cleanedWords.length ≤ best.placements.length) :
    shuffleLoop cleanedWords width height rand (n + 1) best trace =
      (best, trace ++ [attemptPlacement (shuffle (rand (4 - (n + 1))) cleanedWords)
        width height true]) := by
  rw [shuffleLoop]
  dsimp only
  have hHle : (attemptPlacement (shuffle (rand (4 - (n + 1))) cleanedWords)
      width height true).placements.length ≤ cleanedWords.length := by
    have h1 := attemptPlacement_le_length (shuffle (rand (4 - (n + 1))) cleanedWords)
      width height true
    rw [length_shuffle] at h1
    exact h1
  have hnotH : ¬ (best.placements.length <
      (attemptPlacement (shuffle (rand (4 - (n + 1))) cleanedWords)
        width height true).placements.length) := by omega
  rw [if_neg hnotH]
  have hemp : best.unplacedWords.isEmpty = true := by simp [hfull]
  rw [if_pos hemp]

/-- Claim C3, as amended: the orchestrator runs the strategies in the fixed
order (longest-first horizontal, longest-first vertical, shortest-first
horizontal, shortest-first vertical, then shuffled rounds each tried
horizontally then vertically), but it only checks for a fully placed result
after strategies 1 and 2 and after each shuffled attempt — not after
strategies 3 and 4.  A full success at strategy 1 or 2 returns that result
immediately; a full success first reached at strategy 3 or 4 still runs
strategy 4 (when at 3) and one further shuffled horizontal attempt before the
best result is returned, so five attempts run in total. -/
theorem generateCrossword_strategy_order (words : List Word) (width height : Nat)
    (rand : Nat → Nat → Nat) (r1 r2 r3 r4 rH : LayoutResult)
    (hr1 : r1 = attemptPlacement (sortByLengthDesc (cleanWords words)) width height true)
    (hr2 : r2 = attemptPlacement (sortByLengthDesc (cleanWords words)) width height false)
    (hr3 : r3 = attemptPlacement (sortByLengthAsc (cleanWords words)) width height true)
    (hr4 : r4 = attemptPlacement (sortByLengthAsc (cleanWords words)) width height false)
    (hrH : rH = attemptPlacement (shuffle (rand 0) (cleanWords words)) width height true) :
    (r1.unplacedWords = [] → generateCrosswordTrace words width height rand = (r1, [r1])) ∧
    (r1.unplacedWords ≠ [] → r2.unplacedWords = [] →
      generateCrosswordTrace words width height rand = (r2, [r1, r2])) ∧
    (r1.unplacedWords ≠ [] → r2.unplacedWords ≠ [] → r3.unplacedWords = [] →
      generateCrosswordTrace words width height rand = (r3, [r1, r2, r3, r4, rH])) ∧
    (r1.unplacedWords ≠ [] → r2.unplacedWords ≠ [] → r3.unplacedWords ≠ [] →
      r4.unplacedWords = [] →
      generateCrosswordTrace words width height rand = (r4, [r1, r2, r3, r4, rH])) := by
  refine ⟨?_, ?_, ?_, ?_⟩
  · intro h1
    unfold generateCrosswordTrace
    dsimp only
    rw [← hr1, if_pos (by simp [h1])]
  · intro h1 h2
    unfold generateCrosswordTrace
    dsimp only
    rw [← hr1, ← hr2]
    have ha : r1.placements.length < (cleanWords words).length := by
      rw [hr1]
      have := attemptPlacement_notfull_length (sortByLengthDesc (cleanWords words))
        width height true (hr1 ▸ h1)
      rwa [length_sortByLengthDesc] at this
    have hb : r2.placements.length = (cleanWords words).length := by
      rw [hr2]
      have := attemptPlacement_full_length (sortByLengthDesc (cleanWords words))
        width height false (hr2 ▸ h2)
      rwa [length_sortByLengthDesc] at this
    have h1e : ¬ (r1.unplacedWords.isEmpty = true) := by simp [h1]
    rw [if_neg h1e]
    have hlt : r1.placements.length < r2.placements.length := by omega
    rw [if_pos hlt]
    rw [if_pos (by simp [h2] : r2.unplacedWords.isEmpty = true)]
  · intro h1 h2 h3
    unfold generateCrosswordTrace
    dsimp only
    rw [← hr1, ← hr2, ← hr3, ← hr4]
    have ha : r1.placements.length < (cleanWords words).length := by
      rw [hr1]
      have := attemptPlacement_notfull_length (sortByLengthDesc (cleanWords words))
        width height true (hr1 ▸ h1)
      rwa [length_sortByLengthDesc] at this
    have hb : r2.placements.length < (cleanWords words).length := by
      rw [hr2]
      have := attemptPlacement_notfull_length (sortByLengthDesc (cleanWords words))
        width height false (hr2 ▸ h2)
      rwa [length_sortByLengthDesc] at this
    have hc : r3.placements.length = (cleanWords words).length := by
      rw [hr3]
      have := attemptPlacement_full_length (sortByLengthAsc (cleanWords words))
        width height true (hr3 ▸ h3)
      rwa [length_sortByLengthAsc] at this
    have hd : r4.placements.length ≤ (cleanWords words).length := by
      rw [hr4]
      have := attemptPlacement_le_length (sortByLengthAsc (cleanWords words))
        width height false
      rwa [length_sortByLengthAsc] at this
    have h1e : ¬ (r1.unplacedWords.isEmpty = true) := by simp [h1]
    rw [if_neg h1e]
    by_cases hc2 : r1.placements.length < r2.placements.length
    · rw [if_pos hc2]
      rw [if_neg (by simp [h2] : ¬ (r2.unplacedWords.isEmpty = true))]
      rw [if_pos (by omega : r2.placements.length < r3.placements.length)]
      rw [if_neg (by omega : ¬ (r3.placements.length < r4.placements.length))]
      rw [show (4 : Nat) = 3 + 1 from rfl]
      rw [shuffleLoop_stops _ _ _ _ _ _ _ h3 (by omega)]
      norm_num
      rw [← hrH]
    · rw [if_neg hc2]
      rw [if_neg h1e]
      rw [if_pos (by omega : r1.placements.length < r3.placements.length)]
      rw [if_neg (by omega : ¬ (r3.placements.length < r4.placements.length))]
      rw [show (4 : Nat) = 3 + 1 from rfl]
      rw [shuffleLoop_stops _ _ _ _ _ _ _ h3 (by omega)]
      norm_num
      rw [← hrH]
  · intro h1 h2 h3 h4
    unfold generateCrosswordTrace
    dsimp only
    rw [← hr1, ← hr2, ← hr3, ← hr4]
    have ha : r1.placements.length < (cleanWords words).length := by
      rw [hr1]
      have := attemptPlacement_notfull_length (sortByLengthDesc (cleanWords words))
        width height true (hr1 ▸ h1)
      rwa [length_sortByLengthDesc] at this
    have hb : r2.placements.length < (cleanWords words).length := by
      rw [hr2]
      have := attemptPlacement_notfull_length (sortByLengthDesc (cleanWords words))
        width height false (hr2 ▸ h2)
      rwa [length_sortByLengthDesc] at this
    have hc : r3.placements.length < (cleanWords words).length := by
      rw [hr3]
      have := attemptPlacement_notfull_length (sortByLengthAsc (cleanWords words))
        width height true (hr3 ▸ h3)
      rwa [length_sortByLengthAsc] at this
    have hd : r4.placements.length = (cleanWords words).length := by
      rw [hr4]
      have := attemptPlacement_full_length (sortByLengthAsc (cleanWords words))
        width height false (hr4 ▸ h4)
      rwa [length_sortByLengthAsc] at this
    have h1e : ¬ (r1.unplacedWords.isEmpty = true) := by simp [h1]
    rw [if_neg h1e]
    by_cases hc2 : r1.placements.length < r2.placements.length
    · rw [if_pos hc2]
      rw [if_neg (by simp [h2] : ¬ (r2.unplacedWords.isEmpty = true))]
      by_cases hc3 : r2.placements.length < r3.placements.length
      · rw [if_pos hc3]
        rw [if_pos (by omega : r3.placements.length < r4.placements.length)]
        rw [show (4 : Nat) = 3 + 1 from rfl]
        rw [shuffleLoop_stops _ _ _ _ _ _ _ h4 (by omega)]
        norm_num
        rw [← hrH]
      · rw [if_neg hc3]
        rw [if_pos (by omega : r2.placements.length < r4.placements.length)]
        rw [show (4 : Nat) = 3 + 1 from rfl]
        rw [shuffleLoop_stops _ _ _ _ _ _ _ h4 (by omega)]
        norm_num
        rw [← hrH]
    · rw [if_neg hc2]
      rw [if_neg h1e]
      by_cases hc3 : r1.placements.length < r3.placements.length
      · rw [if_pos hc3]
        rw [if_pos (by omega : r3.placements.length < r4.placements.length)]
        rw [show (4 : Nat) = 3 + 1 from rfl]
        rw [shuffleLoop_stops _ _ _ _ _ _ _ h4 (by omega)]
        norm_num
        rw [← hrH]
      · rw [if_neg hc3]
        rw [if_pos (by omega : r1.placements.length < r4.placements.length)]
        rw [show (4 : Nat) = 3 + 1 from rfl]
        rw [shuffleLoop_stops _ _ _ _ _ _ _ h4 (by omega)]
        norm_num
        rw [← hrH]

end Part000

/-- Claim C3 counterexample: on the words `["AX", "CA", "ABC"]` in a 7×2
grid, strategy 3 (shortest-first, horizontal) places every word while
strategies 1 and 2 do not; the orchestrator nevertheless runs five attempts
(strategies 1-4 and one shuffled horizontal attempt) instead of returning the
instant strategy 3 finished. -/
theorem generateCrossword_no_immediate_return :
    (Part000.attemptPlacement (sortByLengthDesc (cleanWords
      [['A','X'], ['C','A'], ['A','B','C']])) 7 2 true).unplacedWords ≠ [] ∧
    (Part000.attemptPlacement (sortByLengthDesc (cleanWords
      [['A','X'], ['C','A'], ['A','B','C']])) 7 2 false).unplacedWords ≠ [] ∧
    (Part000.attemptPlacement (sortByLengthAsc (cleanWords
      [['A','X'], ['C','A'], ['A','B','C']])) 7 2 true).unplacedWords = [] ∧
    ((Part000.generateCrosswordTrace [['A','X'], ['C','A'], ['A','B','C']] 7 2
      (fun _ _ => 0)).2).length = 5 := by
  decide

/-- Claim C3 witness: the amended strategy-order theorem applied at a
concrete input. -/
theorem generateCrossword_strategy_order_witness :
    (((Part000.attemptPlacement (sortByLengthDesc (cleanWords [['A','B']])) 3 3
        true).unplacedWords = [] →
      Part000.generateCrosswordTrace [['A','B']] 3 3 (fun _ _ => 0) =
        (Part000.attemptPlacement (sortByLengthDesc (cleanWords [['A','B']])) 3 3 true,
         [Part000.attemptPlacement (sortByLengthDesc (cleanWords [['A','B']])) 3 3 true])) ∧
     ((Part000.attemptPlacement (sortByLengthDesc (cleanWords [['A','B']])) 3 3
        true).unplacedWords ≠ [] →
      (Part000.attemptPlacement (sortByLengthDesc (cleanWords [['A','B']])) 3 3
        false).unplacedWords = [] →
      Part000.generateCrosswordTrace [['A','B']] 3 3 (fun _ _ => 0) =
        (Part000.attemptPlacement (sortByLengthDesc (cleanWords [['A','B']])) 3 3 false,
         [Part000.attemptPlacement (sortByLengthDesc (cleanWords [['A','B']])) 3 3 true,
          Part000.attemptPlacement (sortByLengthDesc (cleanWords [['A','B']])) 3 3 false])) ∧
     ((Part000.attemptPlacement (sortByLengthDesc (cleanWords [['A','B']])) 3 3
        true).unplacedWords ≠ [] →
      (Part000.attemptPlacement (sortByLengthDesc (cleanWords [['A','B']])) 3 3
        false).unplacedWords ≠ [] →
      (Part000.attemptPlacement (sortByLengthAsc (cleanWords [['A','B']])) 3 3
        true).unplacedWords = [] →
      Part000.generateCrosswordTrace [['A','B']] 3 3 (fun _ _ => 0) =
        (Part000.attemptPlacement (sortByLengthAsc (cleanWords [['A','B']])) 3 3 true,
         [Part000.attemptPlacement (sortByLengthDesc (cleanWords [['A','B']])) 3 3 true,
          Part000.attemptPlacement (sortByLengthDesc (cleanWords [['A','B']])) 3 3 false,
          Part000.attemptPlacement (sortByLengthAsc (cleanWords [['A','B']])) 3 3 true,
          Part000.attemptPlacement (sortByLengthAsc (cleanWords [['A','B']])) 3 3 false,
          Part000.attemptPlacement (shuffle ((fun _ _ => 0) 0) (cleanWords [['A','B']]))
            3 3 true])) ∧
     ((Part000.attemptPlacement (sortByLengthDesc (cleanWords [['A','B']])) 3 3
        true).unplacedWords ≠ [] →
      (Part000.attemptPlacement (sortByLengthDesc (cleanWords [['A','B']])) 3 3
        false).unplacedWords ≠ [] →
      (Part000.attemptPlacement (sortByLengthAsc (cleanWords [['A','B']])) 3 3
        true).unplacedWords ≠ [] →
      (Part000.attemptPlacement (sortByLengthAsc (cleanWords [['A','B']])) 3 3
        false).unplacedWords = [] →
      Part000.generateCrosswordTrace [['A','B']] 3 3 (fun _ _ => 0) =
        (Part000.attemptPlacement (sortByLengthAsc (cleanWords [['A','B']])) 3 3 false,
         [Part000.attemptPlacement (sortByLengthDesc (cleanWords [['A','B']])) 3 3 true,
          Part000.attemptPlacement (sortByLengthDesc (cleanWords [['A','B']])) 3 3 false,
          Part000.attemptPlacement (sortByLengthAsc (cleanWords [['A','B']])) 3 3 true,
          Part000.attemptPlacement (sortByLengthAsc (cleanWords [['A','B']])) 3 3 false,
          Part000.attemptPlacement (shuffle ((fun _ _ => 0) 0) (cleanWords [['A','B']]))
            3 3 true]))) :=
  Part000.generateCrossword_strategy_order [['A','B']] 3 3 (fun _ _ => 0)
    _ _ _ _ _ rfl rfl rfl rfl rfl

namespace Part000

theorem isValidPlacement_zero_dims {grid : Grid} {word : Word} {row col : Int}
    {isHorizontal : Bool} (hword : word ≠ [])
    (hdim : gridWidth grid = 0 ∨ gridHeight grid = 0) :
    isValidPlacement grid word row col isHorizontal = false := by
  have hlen : 1 ≤ word.length := List.length_pos.2 hword
  unfold isValidPlacement
  dsimp only
  have hb : (if isHorizontal then
      !(decide (col < 0) || decide (col + (word.length : Int) > (gridWidth grid : Int))) &&
        !(decide (row < 0) || decide (row ≥ (gridHeight grid : Int)))
    else
      !(decide (row < 0) || decide (row + (word.length : Int) > (gridHeight grid : Int))) &&
        !(decide (col < 0) || decide (col ≥ (gridWidth grid : Int)))) = false := by
    cases isHorizontal <;>
      simp only [if_true, if_false, Bool.false_eq_true, Bool.and_eq_false_iff,
        Bool.not_eq_false', Bool.or_eq_true, decide_eq_true_eq] <;>
      rcases hdim with hdim | hdim <;> rw [hdim] <;> omega
  rw [hb]
  simp

theorem findValidPlacements_zero_dims {grid : Grid} {word : Word}
    {placements : List Placement} {isFirstWord firstWordHorizontal : Bool}
    (hword : word ≠ []) (hdim : gridWidth grid = 0 ∨ gridHeight grid = 0) :
    findValidPlacements grid word placements isFirstWord firstWordHorizontal = [] := by
  rw [List.eq_nil_iff_forall_not_mem]
  intro c hc
  have hvalid := mem_findValidPlacements_valid hc
  rw [isValidPlacement_zero_dims hword hdim] at hvalid
  simp at hvalid

theorem passOne_fold_zero_dims {g0 : Grid} (hdim : gridWidth g0 = 0 ∨ gridHeight g0 = 0)
    (firstWordHorizontal : Bool) :
    ∀ (words : List Word) (u0 : List Word), (∀ x ∈ words, x ≠ []) →
      words.foldl (passOneStep firstWordHorizontal) ⟨g0, [], u0⟩ = ⟨g0, [], u0 ++ words⟩ := by
  intro words
  induction words with
  | nil => intro u0 hws; simp
  | cons w ws ih =>
    intro u0 hws
    rw [List.foldl_cons]
    have hstep : passOneStep firstWordHorizontal ⟨g0, [], u0⟩ w = ⟨g0, [], u0 ++ [w]⟩ := by
      unfold passOneStep
      dsimp only
      rw [findValidPlacements_zero_dims (hws w (List.mem_cons_self _ _)) hdim]
      rfl
    rw [hstep, ih (u0 ++ [w]) (fun x hx => hws x (List.mem_cons_of_mem _ hx))]
    simp

theorem retry_fold_zero_dims {g0 : Grid} (hdim : gridWidth g0 = 0 ∨ gridHeight g0 = 0) :
    ∀ (words : List Word) (still0 : List Word), (∀ x ∈ words, x ≠ []) →
      words.foldl retryStep (⟨g0, [], still0⟩, false) = (⟨g0, [], still0 ++ words⟩, false) := by
  intro words
  induction words with
  | nil => intro still0 hws; simp
  | cons w ws ih =>
    intro still0 hws
    rw [List.foldl_cons]
    have hstep : retryStep (⟨g0, [], still0⟩, false) w = (⟨g0, [], still0 ++ [w]⟩, false) := by
      unfold retryStep
      dsimp only
      rw [findValidPlacements_zero_dims (hws w (List.mem_cons_self _ _)) hdim]
      rfl
    rw [hstep, ih (still0 ++ [w]) (fun x hx => hws x (List.mem_cons_of_mem _ hx))]
    simp

theorem attemptPlacement_zero_dims (words : List Word) (width height : Nat)
    (firstWordHorizontal : Bool) (hdim : width = 0 ∨ height = 0)
    (hws : ∀ x ∈ words, x ≠ []) :
    attemptPlacement words width height firstWordHorizontal =
      ⟨createEmptyGrid width height, [], words⟩ := by
  have hgdim : gridWidth (createEmptyGrid width height) = 0 ∨
      gridHeight (createEmptyGrid width height) = 0 := by
    rcases hdim with rfl | rfl
    · left
      unfold gridWidth createEmptyGrid
      cases height <;> simp [List.replicate_succ]
    · right
      simp [gridHeight, createEmptyGrid]
  unfold attemptPlacement passOne
  rw [passOne_fold_zero_dims hgdim firstWordHorizontal words [] hws]
  dsimp only
  cases hwords : words with
  | nil => rfl
  | cons w ws =>
    simp only [List.nil_append]
    rw [show (w :: ws).length = ws.length + 1 from rfl, retryLoop]
    rw [if_neg (by simp)]
    dsimp only
    unfold retrySweep
    rw [retry_fold_zero_dims hgdim (w :: ws) []
      (fun x hx => hws x (hwords ▸ hx))]
    simp

end Part000

theorem cleanWords_ne_nil (words : List Word) : ∀ x ∈ cleanWords words, x ≠ [] := by
  intro x hx
  unfold cleanWords at hx
  have := (List.mem_filter.1 hx).2
  simp only [decide_eq_true_eq] at this
  exact List.ne_nil_of_length_pos this

namespace Part000

theorem placements_ite {c : Prop} [Decidable c] {a b : LayoutResult}
    (ha : a.placements = []) (hb : b.placements = []) :
    (if c then a else b).placements = [] := by
  split <;> assumption

theorem placements_ite_pair {c : Prop} [Decidable c] {x y : LayoutResult × List LayoutResult}
    (hx : x.1.placements = []) (hy : y.1.placements = []) :
    (if c then x else y).1.placements = [] := by
  split <;> assumption

theorem placements_shuffleLoop_zero_dims (cleanedWords : List Word) (width height : Nat)
    (rand : Nat → Nat → Nat) (hdim : width = 0 ∨ height = 0)
    (hcw : ∀ x ∈ cleanedWords, x ≠ []) :
    ∀ (n : Nat) (best : LayoutResult) (trace : List LayoutResult),
      best.placements = [] →
      (shuffleLoop cleanedWords width height rand n best trace).1.placements = [] := by
  intro n
  induction n with
  | zero => intro best trace hb; exact hb
  | succ n ih =>
    intro best trace hb
    rw [shuffleLoop]
    dsimp only
    have hsh : ∀ x ∈ shuffle (rand (4 - (n + 1))) cleanedWords, x ≠ [] :=
      fun x hx => hcw x ((shuffle_perm _ _).mem_iff.1 hx)
    have hH : (attemptPlacement (shuffle (rand (4 - (n + 1))) cleanedWords)
        width height true).placements = [] := by
      rw [attemptPlacement_zero_dims _ _ _ _ hdim hsh]
    have hV : (attemptPlacement (shuffle (rand (4 - (n + 1))) cleanedWords)
        width height false).placements = [] := by
      rw [attemptPlacement_zero_dims _ _ _ _ hdim hsh]
    exact placements_ite_pair (placements_ite hH hb)
      (placements_ite_pair (placements_ite hV (placements_ite hH hb))
        (ih _ _ (placements_ite hV (placements_ite hH hb))))

end Part000

/-- Claim C7, as amended: `generateCrossword` performs no dimension
validation and signals no precondition violation to the caller.  With a zero
width and a positive height it runs its strategies against the degenerate grid
and returns a normal LayoutResult in which nothing was placed and the unplaced
words are exactly the cleaned input words.  With a zero height the constructed
grid has no rows, and the `grid[0]` read performed first by every
`findValidPlacements` call finds no row — the read whose `.length` access is
the source's uncaught TypeError — so that path dies inside the first attempt
instead of validating or reporting anything. -/
theorem generateCrossword_no_dim_validation (words : List Word) (width height : Nat)
    (rand : Nat → Nat → Nat) (hdim : width = 0 ∨ height = 0) :
    (height ≠ 0 →
      (Part000.generateCrossword words width height rand).placements = [] ∧
        (Part000.generateCrossword words width height rand).unplacedWords ~
          cleanWords words) ∧
    (height = 0 → (createEmptyGrid width height)[0]? = none) := by
  refine ⟨fun _ => ?_, fun hh => by subst hh; simp [createEmptyGrid]⟩
  have hplacements : (Part000.generateCrossword words width height rand).placements = [] := by
    unfold Part000.generateCrossword Part000.generateCrosswordTrace
    dsimp only
    have hdesc : ∀ x ∈ sortByLengthDesc (cleanWords words), x ≠ [] :=
      fun x hx => cleanWords_ne_nil words x ((List.perm_insertionSort _ _).mem_iff.1 hx)
    have hasc : ∀ x ∈ sortByLengthAsc (cleanWords words), x ≠ [] :=
      fun x hx => cleanWords_ne_nil words x ((List.perm_insertionSort _ _).mem_iff.1 hx)
    have h1 : (Part000.attemptPlacement (sortByLengthDesc (cleanWords words))
        width height true).placements = [] := by
      rw [Part000.attemptPlacement_zero_dims _ _ _ _ hdim hdesc]
    have h2 : (Part000.attemptPlacement (sortByLengthDesc (cleanWords words))
        width height false).placements = [] := by
      rw [Part000.attemptPlacement_zero_dims _ _ _ _ hdim hdesc]
    have h3 : (Part000.attemptPlacement (sortByLengthAsc (cleanWords words))
        width height true).placements = [] := by
      rw [Part000.attemptPlacement_zero_dims _ _ _ _ hdim hasc]
    have h4 : (Part000.attemptPlacement (sortByLengthAsc (cleanWords words))
        width height false).placements = [] := by
      rw [Part000.attemptPlacement_zero_dims _ _ _ _ hdim hasc]
    exact Part000.placements_ite_pair h1
      (Part000.placements_ite_pair (Part000.placements_ite h2 h1)
        (Part000.placements_shuffleLoop_zero_dims _ _ _ _ hdim (cleanWords_ne_nil words) 4 _ _
          (Part000.placements_ite h4 (Part000.placements_ite h3
            (Part000.placements_ite h2 h1)))))
  refine ⟨hplacements, ?_⟩
  have hperm := Part000.resultWords_generateCrossword words width height rand
  unfold Part000.resultWords at hperm
  rw [hplacements] at hperm
  simpa using hperm

/-- Claim C7 counterexample: with width 0 (a non-positive dimension) the
generator does not signal a precondition violation before any attempt runs —
all twelve attempts run and a normal result is returned with every word
unplaced. -/
theorem generateCrossword_zero_width_runs_attempts :
    Part000.generateCrossword [['A','B']] 0 5 (fun _ _ => 0) =
      ⟨createEmptyGrid 0 5, [], [['A','B']]⟩ ∧
      ((Part000.generateCrosswordTrace [['A','B']] 0 5 (fun _ _ => 0)).2).length = 12 := by
  decide

/-- Claim C7 witness: the amended theorem at width 0, height 5 (all attempts
run, nothing placed) and at width 3, height 0 (the first row read of the
first attempt finds no row). -/
theorem generateCrossword_no_dim_validation_witness :
    (((0 : Nat) = 0 ∨ (5 : Nat) = 0) ∧ (5 : Nat) ≠ 0 ∧
      (Part000.generateCrossword [['A','B']] 0 5 (fun _ _ => 0)).placements = [] ∧
        (Part000.generateCrossword [['A','B']] 0 5 (fun _ _ => 0)).unplacedWords ~
          cleanWords [['A','B']]) ∧
    (((3 : Nat) = 0 ∨ (0 : Nat) = 0) ∧ (createEmptyGrid 3 0)[0]? = none) :=
  ⟨⟨Or.inl rfl, by decide,
    (generateCrossword_no_dim_validation [['A','B']] 0 5 (fun _ _ => 0) (Or.inl rfl)).1
      (by decide)⟩,
   ⟨Or.inr rfl,
    (generateCrossword_no_dim_validation [['A','B']] 3 0 (fun _ _ => 0) (Or.inr rfl)).2 rfl⟩⟩

namespace Part000

/-- Replaying a placement list: write each placement's letters, in order, onto
a fresh all-empty grid of the stated dimensions (the reconstruction the spec's
round-trip property describes, built from `placeWord`). -/
def replayGrid (width height : Nat) (placements : List Placement) : Grid :=
  placements.foldl (fun g p => placeWord g p.word p.row p.col p.isHorizontal)
    (createEmptyGrid width height)

theorem replayGrid_append_one (width height : Nat) (ps : List Placement) (p : Placement) :
    replayGrid width height (ps ++ [p]) =
      placeWord (replayGrid width height ps) p.word p.row p.col p.isHorizontal := by
  unfold replayGrid
  rw [List.foldl_append]
  rfl

/-- A layout state whose grid is the replay of its placements. -/
def ReplayInv (width height : Nat) (st : LayoutResult) : Prop :=
  st.grid = replayGrid width height st.placements

theorem result_ite {P : LayoutResult → Prop} {c : Prop} [Decidable c] {a b : LayoutResult}
    (ha : P a) (hb : P b) : P (if c then a else b) := by
  split <;> assumption

theorem result_ite_pair {P : LayoutResult → Prop} {c : Prop} [Decidable c]
    {x y : LayoutResult × List LayoutResult} (hx : P x.1) (hy : P y.1) :
    P (if c then x else y).1 := by
  split <;> assumption

theorem passOneStep_replay (width height : Nat) (firstWordHorizontal : Bool)
    (st : LayoutResult) (word : Word) (h : ReplayInv width height st) :
    ReplayInv width height (passOneStep firstWordHorizontal st word) := by
  unfold passOneStep
  cases hcb : chooseBest (findValidPlacements st.grid word st.placements
      st.placements.isEmpty firstWordHorizontal) with
  | none =>
    dsimp only
    rw [hcb]
    exact h
  | some best =>
    dsimp only
    rw [hcb]
    unfold ReplayInv at h ⊢
    dsimp only
    rw [replayGrid_append_one, ← h]

theorem retryStep_replay (width height : Nat) (st : LayoutResult × Bool) (word : Word)
    (h : ReplayInv width height st.1) : ReplayInv width height (retryStep st word).1 := by
  unfold retryStep
  cases hcb : chooseBest (findValidPlacements st.1.grid word st.1.placements false true) with
  | none =>
    dsimp only
    rw [hcb]
    exact h
  | some best =>
    dsimp only
    rw [hcb]
    unfold ReplayInv at h ⊢
    dsimp only
    rw [replayGrid_append_one, ← h]

theorem retryLoop_replay (width height : Nat) (fuel : Nat) :
    ∀ (grid : Grid) (placements : List Placement) (unplaced : List Word),
      ReplayInv width height ⟨grid, placements, unplaced⟩ →
      ReplayInv width height (retryLoop fuel grid placements unplaced) := by
  induction fuel with
  | zero => intro grid placements unplaced h; exact h
  | succ fuel ih =>
    intro grid placements unplaced h
    rw [retryLoop]
    split
    · exact h
    · dsimp only
      have hsweep : ReplayInv width height (retrySweep grid placements unplaced).1 := by
        unfold retrySweep
        refine foldl_invariant (fun st : LayoutResult × Bool => ReplayInv width height st.1)
          retryStep unplaced (⟨grid, placements, []⟩, false) h ?_
        intro st word hst
        exact retryStep_replay width height st word hst
      split
      · have hout := hsweep
        exact ih _ _ _ (by
          have : (retrySweep grid placements unplaced).1 =
              ⟨(retrySweep grid placements unplaced).1.grid,
               (retrySweep grid placements unplaced).1.placements,
               (retrySweep grid placements unplaced).1.unplacedWords⟩ := rfl
          rw [← this]
          exact hout)
      · exact hsweep

theorem attemptPlacement_replay (words : List Word) (width height : Nat)
    (firstWordHorizontal : Bool) :
    ReplayInv width height (attemptPlacement words width height firstWordHorizontal) := by
  unfold attemptPlacement passOne
  have hp1 : ReplayInv width height
      (words.foldl (passOneStep firstWordHorizontal) ⟨createEmptyGrid width height, [], []⟩) := by
    refine foldl_invariant (ReplayInv width height) (passOneStep firstWordHorizontal) words
      ⟨createEmptyGrid width height, [], []⟩ rfl ?_
    intro st word hst
    exact passOneStep_replay width height firstWordHorizontal st word hst
  dsimp only
  refine retryLoop_replay width height _ _ _ _ ?_
  exact hp1

theorem shuffleLoop_replay (cleanedWords : List Word) (width height : Nat)
    (rand : Nat → Nat → Nat) :
    ∀ (n : Nat) (best : LayoutResult) (trace : List LayoutResult),
      ReplayInv width height best →
      ReplayInv width height (shuffleLoop cleanedWords width height rand n best trace).1 := by
  intro n
  induction n with
  | zero => intro best trace hb; exact hb
  | succ n ih =>
    intro best trace hb
    rw [shuffleLoop]
    dsimp only
    have hH := attemptPlacement_replay (shuffle (rand (4 - (n + 1))) cleanedWords)
      width height true
    have hV := attemptPlacement_replay (shuffle (rand (4 - (n + 1))) cleanedWords)
      width height false
    exact result_ite_pair (result_ite hH hb)
      (result_ite_pair (result_ite hV (result_ite hH hb))
        (ih _ _ (result_ite hV (result_ite hH hb))))

end Part000

/-- Claim C6: for every LayoutResult the engine produces, replaying the
placements in order onto a fresh all-empty grid of the stated dimensions
yields exactly the grid returned in that result. -/
theorem replay_placements_eq_grid (words : List Word) (width height : Nat)
    (rand : Nat → Nat → Nat) :
    Part000.replayGrid width height
        (Part000.generateCrossword words width height rand).placements =
      (Part000.generateCrossword words width height rand).grid := by
  have h : Part000.ReplayInv width height (Part000.generateCrossword words width height rand) := by
    unfold Part000.generateCrossword Part000.generateCrosswordTrace
    dsimp only
    have h1 := Part000.attemptPlacement_replay (sortByLengthDesc (cleanWords words))
      width height true
    have h2 := Part000.attemptPlacement_replay (sortByLengthDesc (cleanWords words))
      width height false
    have h3 := Part000.attemptPlacement_replay (sortByLengthAsc (cleanWords words))
      width height true
    have h4 := Part000.attemptPlacement_replay (sortByLengthAsc (cleanWords words))
      width height false
    exact Part000.result_ite_pair h1
      (Part000.result_ite_pair (Part000.result_ite h2 h1)
        (Part000.shuffleLoop_replay _ _ _ _ 4 _ _
          (Part000.result_ite h4 (Part000.result_ite h3 (Part000.result_ite h2 h1)))))
  exact h.symm

namespace NumberingUtils

/-- A numbered entry `{number, word, row, col}` of `acrossWords`/`downWords`. -/
structure NumberedWord where
  number : Nat
  word : Word
  row : Nat
  col : Nat
deriving DecidableEq

/-- The numbering result `{cellNumbers, acrossWords, downWords}`. -/
structure NumberingResult where
  cellNumbers : List (List (Option Nat))
  acrossWords : List NumberedWord
  downWords : List NumberedWord
deriving DecidableEq

/-- Source `startsAcrossWord(grid, row, col)`: the cell holds a letter, the
cell to its left is out of bounds or empty, and the cell to its right is in
bounds and holds a letter. -/
def startsAcrossWord (grid : Grid) (row col : Nat) : Bool :=
  (cellAt grid row col).isSome &&
  !(decide (0 < col) && (cellAt grid row ((col : Int) - 1)).isSome) &&
  (decide (col + 1 < gridWidth grid) && (cellAt grid row ((col : Int) + 1)).isSome)

/-- Source `startsDownWord(grid, row, col)`. -/
def startsDownWord (grid : Grid) (row col : Nat) : Bool :=
  (cellAt grid row col).isSome &&
  !(decide (0 < row) && (cellAt grid ((row : Int) - 1) col).isSome) &&
  (decide (row + 1 < gridHeight grid) && (cellAt grid ((row : Int) + 1) col).isSome)

/-- The `for (c = col; c < width && grid[row][c] !== null; c++)` loop of
`extractWord`; the fuel is `width - col`, exactly the number of iterations the
`c < width` bound allows. -/
def extractAcrossGo (grid : Grid) (row : Nat) : Nat → Nat → Word
  | 0, _ => []
  | fuel + 1, c =>
    if c < gridWidth grid then
      match cellAt grid row c with
      | some ch => ch :: extractAcrossGo grid row fuel (c + 1)
      | none => []
    else []

/-- The symmetric loop of `extractWord` for Down entries. -/
def extractDownGo (grid : Grid) (col : Nat) : Nat → Nat → Word
  | 0, _ => []
  | fuel + 1, r =>
    if r < gridHeight grid then
      match cellAt grid r col with
      | some ch => ch :: extractDownGo grid col fuel (r + 1)
      | none => []
    else []

/-- Source `extractWord(grid, row, col, isHorizontal)`. -/
def extractWord (grid : Grid) (row col : Nat) (isHorizontal : Bool) : Word :=
  if isHorizontal then extractAcrossGo grid row (gridWidth grid - col) col
  else extractDownGo grid col (gridHeight grid - row) row

/-- Writing `cellNumbers[row][col] = v` (always in range in the source). -/
def setNum (cellNumbers : List (List (Option Nat))) (r c : Nat) (v : Option Nat) :
    List (List (Option Nat)) :=
  match cellNumbers[r]? with
  | some rowL => cellNumbers.set r (rowL.set c v)
  | none => cellNumbers

/-- The mutable state of `generateNumbering`'s scan. -/
structure NumberingState where
  cellNumbers : List (List (Option Nat))
  acrossWords : List NumberedWord
  downWords : List NumberedWord
  currentNumber : Nat

/-- The cells in scan order: left-to-right within a row, rows top-to-bottom —
the source's nested `for (row) for (col)` loops. -/
def scanPositions (height width : Nat) : List (Nat × Nat) :=
  (List.range height).flatMap (fun row => (List.range width).map (fun col => (row, col)))

/-- The body of `generateNumbering`'s scan for one cell. -/
def numberingStep (grid : Grid) (st : NumberingState) (pos : Nat × Nat) : NumberingState :=
  let isAcrossStart := startsAcrossWord grid pos.1 pos.2
  let isDownStart := startsDownWord grid pos.1 pos.2
  if isAcrossStart || isDownStart then
    { cellNumbers := setNum st.cellNumbers pos.1 pos.2 (some st.currentNumber)
      acrossWords := st.acrossWords ++ (if isAcrossStart then
        [⟨st.currentNumber, extractWord grid pos.1 pos.2 true, pos.1, pos.2⟩] else [])
      downWords := st.downWords ++ (if isDownStart then
        [⟨st.currentNumber, extractWord grid pos.1 pos.2 false, pos.1, pos.2⟩] else [])
      currentNumber := st.currentNumber + 1 }
  else st

/-- Source `generateNumbering(grid)` of `numberingUtils.js` for a non-null
grid argument (the `!grid` guard is `generateNumberingOpt` below). -/
def generateNumbering (grid : Grid) : NumberingResult :=
  if grid.isEmpty then ⟨[], [], []⟩
  else
    let height := gridHeight grid
    let width := gridWidth grid
    let final := (scanPositions height width).foldl (numberingStep grid)
      ⟨List.replicate height (List.replicate width none), [], [], 1⟩
    ⟨final.cellNumbers, final.acrossWords, final.downWords⟩

/-- Source `generateNumbering` including the `!grid` guard: a JS `null` or
`undefined` grid argument is the `none` case. -/
def generateNumberingOpt : Option Grid → NumberingResult
  | none => ⟨[], [], []⟩
  | some grid => generateNumbering grid

end NumberingUtils

/-- Claim C10: a null/undefined grid or a grid with zero rows yields the
all-empty numbering result rather than an error. -/
theorem generateNumbering_degenerate_inputs :
    NumberingUtils.generateNumberingOpt none = ⟨[], [], []⟩ ∧
      NumberingUtils.generateNumbering [] = ⟨[], [], []⟩ :=
  ⟨rfl, rfl⟩

namespace NumberingUtils

/-- The claim's Across-start condition: the cell holds a letter, its left
neighbor is out of bounds or empty, and its right neighbor holds a letter. -/
def StartsAcrossSpec (grid : Grid) (row col : Nat) : Prop :=
  (cellAt grid row col).isSome ∧ cellAt grid row ((col : Int) - 1) = none ∧
    (cellAt grid row ((col : Int) + 1)).isSome

/-- The claim's Down-start condition, symmetric with up/down neighbors. -/
def StartsDownSpec (grid : Grid) (row col : Nat) : Prop :=
  (cellAt grid row col).isSome ∧ cellAt grid ((row : Int) - 1) col = none ∧
    (cellAt grid ((row : Int) + 1) col).isSome

instance (grid : Grid) (row col : Nat) : Decidable (StartsAcrossSpec grid row col) := by
  unfold StartsAcrossSpec; infer_instance

instance (grid : Grid) (row col : Nat) : Decidable (StartsDownSpec grid row col) := by
  unfold StartsDownSpec; infer_instance

theorem startsAcrossWord_iff (grid : Grid) (hg : Rectangular grid) (row col : Nat) :
    startsAcrossWord grid row col = true ↔ StartsAcrossSpec grid row col := by
  unfold startsAcrossWord StartsAcrossSpec
  simp only [Bool.and_eq_true, Bool.not_eq_true', Bool.and_eq_false_iff,
    decide_eq_false_iff_not, decide_eq_true_eq]
  constructor
  · rintro ⟨⟨hcell, hleft⟩, hwidth, hright⟩
    refine ⟨hcell, ?_, hright⟩
    rcases hleft with hleft | hleft
    · exact cellAt_neg (Or.inr (by omega))
    · simpa using hleft
  · rintro ⟨hcell, hleft, hright⟩
    have hbound := cellAt_isSome_bounds hg hright
    refine ⟨⟨hcell, Or.inr (by simp [hleft])⟩, by omega, hright⟩

theorem startsDownWord_iff (grid : Grid) (row col : Nat) :
    startsDownWord grid row col = true ↔ StartsDownSpec grid row col := by
  unfold startsDownWord StartsDownSpec
  simp only [Bool.and_eq_true, Bool.not_eq_true', Bool.and_eq_false_iff,
    decide_eq_false_iff_not, decide_eq_true_eq]
  constructor
  · rintro ⟨⟨hcell, hup⟩, hheight, hdown⟩
    refine ⟨hcell, ?_, hdown⟩
    rcases hup with hup | hup
    · exact cellAt_neg (Or.inl (by omega))
    · simpa using hup
  · rintro ⟨hcell, hup, hdown⟩
    have hdown2 := hdown
    rw [Option.isSome_iff_exists] at hdown2
    obtain ⟨ch, hch⟩ := hdown2
    have hbound : (row : Int) + 1 < gridHeight grid := by
      by_contra hcon
      push_neg at hcon
      rw [cellAt_of_height_le hcon] at hch
      simp at hch
    refine ⟨⟨hcell, Or.inr (by simp [hup])⟩, by omega, hdown⟩

/-- Does the scan number this cell: it starts an Across or a Down entry. -/
def isStartB (grid : Grid) (pos : Nat × Nat) : Bool :=
  startsAcrossWord grid pos.1 pos.2 || startsDownWord grid pos.1 pos.2

/-- The claim's combined condition. -/
def StartsEitherSpec (grid : Grid) (pos : Nat × Nat) : Prop :=
  StartsAcrossSpec grid pos.1 pos.2 ∨ StartsDownSpec grid pos.1 pos.2

instance (grid : Grid) (pos : Nat × Nat) : Decidable (StartsEitherSpec grid pos) := by
  unfold StartsEitherSpec; infer_instance

theorem isStartB_iff (grid : Grid) (hg : Rectangular grid) (pos : Nat × Nat) :
    isStartB grid pos = true ↔ StartsEitherSpec grid pos := by
  unfold isStartB StartsEitherSpec
  rw [Bool.or_eq_true, startsAcrossWord_iff grid hg, startsDownWord_iff grid]

/-- Strict scan (row-major) order on cells. -/
def ScanBefore (q pos : Nat × Nat) : Prop :=
  q.1 < pos.1 ∨ (q.1 = pos.1 ∧ q.2 < pos.2)

instance (q pos : Nat × Nat) : Decidable (ScanBefore q pos) := by
  unfold ScanBefore; infer_instance

/-- The shared sequential number of a start cell, per the claim: one more than
the number of start cells strictly earlier in the left-to-right,
top-to-bottom scan. -/
def specNumber (grid : Grid) (pos : Nat × Nat) : Nat :=
  1 + ((scanPositions (gridHeight grid) (gridWidth grid)).filter
    (fun q => decide (ScanBefore q pos) && decide (StartsEitherSpec grid q))).length

/-- The Across list the claim describes: the Across-start cells in scan
order, each with its shared number and extracted word. -/
def specAcrossWords (grid : Grid) : List NumberedWord :=
  ((scanPositions (gridHeight grid) (gridWidth grid)).filter
    (fun p => decide (StartsAcrossSpec grid p.1 p.2))).map
    (fun p => ⟨specNumber grid p, extractWord grid p.1 p.2 true, p.1, p.2⟩)

/-- The Down list the claim describes. -/
def specDownWords (grid : Grid) : List NumberedWord :=
  ((scanPositions (gridHeight grid) (gridWidth grid)).filter
    (fun p => decide (StartsDownSpec grid p.1 p.2))).map
    (fun p => ⟨specNumber grid p, extractWord grid p.1 p.2 false, p.1, p.2⟩)

/-- The cell-number matrix the claim describes: the shared number at each
start cell, `none` elsewhere. -/
def specCellNumbers (grid : Grid) : List (List (Option Nat)) :=
  (List.range (gridHeight grid)).map (fun r => (List.range (gridWidth grid)).map (fun c =>
    if StartsEitherSpec grid (r, c) then some (specNumber grid (r, c)) else none))

end NumberingUtils

namespace NumberingUtils

/-- Number of start cells in a list of positions. -/
def countStarts (grid : Grid) (ps : List (Nat × Nat)) : Nat :=
  (ps.filter (fun p => isStartB grid p)).length

/-- The Across entries the scan emits over the positions `ps`, with the
shared counter starting at `n`. -/
def specAcrossFrom (grid : Grid) : Nat → List (Nat × Nat) → List NumberedWord
  | _, [] => []
  | n, p :: ps =>
    if isStartB grid p then
      (if startsAcrossWord grid p.1 p.2 then
        [⟨n, extractWord grid p.1 p.2 true, p.1, p.2⟩] else []) ++
        specAcrossFrom grid (n + 1) ps
    else specAcrossFrom grid n ps

/-- The Down entries the scan emits over the positions `ps`. -/
def specDownFrom (grid : Grid) : Nat → List (Nat × Nat) → List NumberedWord
  | _, [] => []
  | n, p :: ps =>
    if isStartB grid p then
      (if startsDownWord grid p.1 p.2 then
        [⟨n, extractWord grid p.1 p.2 false, p.1, p.2⟩] else []) ++
        specDownFrom grid (n + 1) ps
    else specDownFrom grid n ps

/-- The cell-number writes the scan performs over the positions `ps`. -/
def applyNumbers (grid : Grid) :
    Nat → List (Nat × Nat) → List (List (Option Nat)) → List (List (Option Nat))
  | _, [], cn => cn
  | n, p :: ps, cn =>
    if isStartB grid p then applyNumbers grid (n + 1) ps (setNum cn p.1 p.2 (some n))
    else applyNumbers grid n ps cn

theorem foldl_numberingStep_spec (grid : Grid) :
    ∀ (ps : List (Nat × Nat)) (st0 : NumberingState),
      (ps.foldl (numberingStep grid) st0) =
        ⟨applyNumbers grid st0.currentNumber ps st0.cellNumbers,
         st0.acrossWords ++ specAcrossFrom grid st0.currentNumber ps,
         st0.downWords ++ specDownFrom grid st0.currentNumber ps,
         st0.currentNumber + countStarts grid ps⟩ := by
  intro ps
  induction ps with
  | nil =>
    intro st0
    simp [applyNumbers, specAcrossFrom, specDownFrom, countStarts]
  | cons p ps ih =>
    intro st0
    rw [List.foldl_cons, ih]
    unfold numberingStep
    dsimp only
    by_cases hst : isStartB grid p = true
    · have hor : (startsAcrossWord grid p.1 p.2 || startsDownWord grid p.1 p.2) = true := hst
      rw [if_pos hor]
      dsimp only
      rw [specAcrossFrom, specDownFrom, applyNumbers, if_pos hst, if_pos hst, if_pos hst]
      have hcount : countStarts grid (p :: ps) = countStarts grid ps + 1 := by
        unfold countStarts
        rw [List.filter_cons, if_pos hst]
        simp [Nat.add_comm]
      rw [hcount]
      simp [List.append_assoc, Nat.add_comm, Nat.add_left_comm, Nat.add_assoc]
    · have hor : ¬ ((startsAcrossWord grid p.1 p.2 || startsDownWord grid p.1 p.2) = true) := hst
      rw [if_neg hor]
      rw [specAcrossFrom, specDownFrom, applyNumbers, if_neg hst, if_neg hst, if_neg hst]
      have hcount : countStarts grid (p :: ps) = countStarts grid ps := by
        unfold countStarts
        rw [List.filter_cons, if_neg hst]
      rw [hcount]

end NumberingUtils

namespace NumberingUtils

theorem mem_scanPositions (height width : Nat) (pos : Nat × Nat) :
    pos ∈ scanPositions height width ↔ pos.1 < height ∧ pos.2 < width := by
  cases pos with
  | mk r c =>
    unfold scanPositions
    simp only [List.mem_flatMap, List.mem_map, List.mem_range, Prod.mk.injEq]
    constructor
    · rintro ⟨a, ha, b, hb, rfl, rfl⟩
      exact ⟨ha, hb⟩
    · rintro ⟨hr, hc⟩
      exact ⟨r, hr, c, hc, rfl, rfl⟩

theorem pairwise_scanPositions (height width : Nat) :
    List.Pairwise ScanBefore (scanPositions height width) := by
  unfold scanPositions
  rw [List.pairwise_flatMap]
  constructor
  · intro r _
    rw [List.pairwise_map]
    refine (List.pairwise_lt_range width).imp ?_
    intro a b hab
    exact Or.inr ⟨rfl, hab⟩
  · refine (List.pairwise_lt_range height).imp ?_
    intro r1 r2 h12 x hx y hy
    simp only [List.mem_map, List.mem_range] at hx hy
    obtain ⟨c1, _, rfl⟩ := hx
    obtain ⟨c2, _, rfl⟩ := hy
    exact Or.inl h12

theorem nodup_scanPositions (height width : Nat) : (scanPositions height width).Nodup := by
  refine (pairwise_scanPositions height width).imp ?_
  intro a b hab
  intro hEq
  subst hEq
  unfold ScanBefore at hab
  omega

theorem filter_scanBefore_eq_prefix {l : List (Nat × Nat)}
    (hp : List.Pairwise ScanBefore l) {pre post : List (Nat × Nat)} {p : Nat × Nat}
    (heq : l = pre ++ p :: post) :
    l.filter (fun q => decide (ScanBefore q p)) = pre := by
  subst heq
  rw [List.pairwise_append] at hp
  obtain ⟨hpre, hpost, hcross⟩ := hp
  rw [List.filter_append, List.filter_cons]
  have hself : ¬ ScanBefore p p := by unfold ScanBefore; omega
  rw [if_neg (by simpa using hself)]
  have h1 : pre.filter (fun q => decide (ScanBefore q p)) = pre :=
    List.filter_eq_self.2 (fun q hq => by
      simpa using hcross q hq p (List.mem_cons_self _ _))
  have h2 : post.filter (fun q => decide (ScanBefore q p)) = [] := by
    rw [List.filter_eq_nil_iff]
    intro q hq
    have hpq : ScanBefore p q := List.rel_of_pairwise_cons hpost hq
    unfold ScanBefore at hpq ⊢
    simp only [decide_eq_true_eq]
    omega
  rw [h1, h2, List.append_nil]

theorem specNumber_eq_prefix (grid : Grid) (hg : Rectangular grid)
    {pre post : List (Nat × Nat)} {p : Nat × Nat}
    (heq : scanPositions (gridHeight grid) (gridWidth grid) = pre ++ p :: post) :
    specNumber grid p = 1 + countStarts grid pre := by
  unfold specNumber countStarts
  congr 1
  have hff : (scanPositions (gridHeight grid) (gridWidth grid)).filter
      (fun q => decide (ScanBefore q p) && decide (StartsEitherSpec grid q)) =
      ((scanPositions (gridHeight grid) (gridWidth grid)).filter
        (fun q => decide (ScanBefore q p))).filter
        (fun q => decide (StartsEitherSpec grid q)) := by
    rw [List.filter_filter]
    apply List.filter_congr
    intro q _
    rw [Bool.and_comm]
  rw [hff, filter_scanBefore_eq_prefix (pairwise_scanPositions _ _) heq]
  congr 1
  apply List.filter_congr
  intro q _
  rw [Bool.eq_iff_iff]
  simp only [decide_eq_true_eq]
  exact (isStartB_iff grid hg q).symm

end NumberingUtils

namespace NumberingUtils

theorem specAcrossFrom_eq (grid : Grid) (hg : Rectangular grid) :
    ∀ (ps pre : List (Nat × Nat)),
      scanPositions (gridHeight grid) (gridWidth grid) = pre ++ ps →
      specAcrossFrom grid (1 + countStarts grid pre) ps =
        (ps.filter (fun p => decide (StartsAcrossSpec grid p.1 p.2))).map
          (fun p => ⟨specNumber grid p, extractWord grid p.1 p.2 true, p.1, p.2⟩) := by
  intro ps
  induction ps with
  | nil => intro pre _; rfl
  | cons p ps ih =>
    intro pre heq
    have hnum : specNumber grid p = 1 + countStarts grid pre :=
      specNumber_eq_prefix grid hg heq
    have hnext : scanPositions (gridHeight grid) (gridWidth grid) = (pre ++ [p]) ++ ps := by
      rw [heq, List.append_assoc, List.singleton_append]
    by_cases hst : isStartB grid p = true
    · have hcount : countStarts grid (pre ++ [p]) = countStarts grid pre + 1 := by
        unfold countStarts
        rw [List.filter_append]
        simp [List.filter_cons, hst]
      have hc1 : 1 + countStarts grid pre + 1 = 1 + countStarts grid (pre ++ [p]) := by
        omega
      by_cases hsa : startsAcrossWord grid p.1 p.2 = true
      · have hspec : decide (StartsAcrossSpec grid p.1 p.2) = true := by
          simpa using (startsAcrossWord_iff grid hg p.1 p.2).1 hsa
        rw [specAcrossFrom, if_pos hst, if_pos hsa, hc1, ih (pre ++ [p]) hnext]
        simp only [List.filter_cons, hspec, if_true, List.map_cons, List.singleton_append]
        rw [hnum]
      · have hspec : ¬ (decide (StartsAcrossSpec grid p.1 p.2) = true) := by
          simp only [decide_eq_true_eq]
          intro h
          exact hsa ((startsAcrossWord_iff grid hg p.1 p.2).2 h)
        rw [specAcrossFrom, if_pos hst, if_neg hsa, hc1, ih (pre ++ [p]) hnext]
        simp only [List.filter_cons, List.nil_append]
        rw [if_neg hspec]
    · have hcount : countStarts grid (pre ++ [p]) = countStarts grid pre := by
        unfold countStarts
        rw [List.filter_append]
        simp [List.filter_cons, hst]
      have hsa : ¬ (startsAcrossWord grid p.1 p.2 = true) := by
        intro h
        exact hst (by simp [isStartB, h])
      have hspec : ¬ (decide (StartsAcrossSpec grid p.1 p.2) = true) := by
        simp only [decide_eq_true_eq]
        intro h
        exact hsa ((startsAcrossWord_iff grid hg p.1 p.2).2 h)
      have hc1 : 1 + countStarts grid pre = 1 + countStarts grid (pre ++ [p]) := by omega
      rw [specAcrossFrom, if_neg hst, hc1, ih (pre ++ [p]) hnext]
      simp only [List.filter_cons]
      rw [if_neg hspec]

theorem specDownFrom_eq (grid : Grid) (hg : Rectangular grid) :
    ∀ (ps pre : List (Nat × Nat)),
      scanPositions (gridHeight grid) (gridWidth grid) = pre ++ ps →
      specDownFrom grid (1 + countStarts grid pre) ps =
        (ps.filter (fun p => decide (StartsDownSpec grid p.1 p.2))).map
          (fun p => ⟨specNumber grid p, extractWord grid p.1 p.2 false, p.1, p.2⟩) := by
  intro ps
  induction ps with
  | nil => intro pre _; rfl
  | cons p ps ih =>
    intro pre heq
    have hnum : specNumber grid p = 1 + countStarts grid pre :=
      specNumber_eq_prefix grid hg heq
    have hnext : scanPositions (gridHeight grid) (gridWidth grid) = (pre ++ [p]) ++ ps := by
      rw [heq, List.append_assoc, List.singleton_append]
    by_cases hst : isStartB grid p = true
    · have hcount : countStarts grid (pre ++ [p]) = countStarts grid pre + 1 := by
        unfold countStarts
        rw [List.filter_append]
        simp [List.filter_cons, hst]
      have hc1 : 1 + countStarts grid pre + 1 = 1 + countStarts grid (pre ++ [p]) := by
        omega
      by_cases hsd : startsDownWord grid p.1 p.2 = true
      · have hspec : decide (StartsDownSpec grid p.1 p.2) = true := by
          simpa using (startsDownWord_iff grid p.1 p.2).1 hsd
        rw [specDownFrom, if_pos hst, if_pos hsd, hc1, ih (pre ++ [p]) hnext]
        simp only [List.filter_cons, hspec, if_true, List.map_cons, List.singleton_append]
        rw [hnum]
      · have hspec : ¬ (decide (StartsDownSpec grid p.1 p.2) = true) := by
          simp only [decide_eq_true_eq]
          intro h
          exact hsd ((startsDownWord_iff grid p.1 p.2).2 h)
        rw [specDownFrom, if_pos hst, if_neg hsd, hc1, ih (pre ++ [p]) hnext]
        simp only [List.filter_cons, List.nil_append]
        rw [if_neg hspec]
    · have hcount : countStarts grid (pre ++ [p]) = countStarts grid pre := by
        unfold countStarts
        rw [List.filter_append]
        simp [List.filter_cons, hst]
      have hsd : ¬ (startsDownWord grid p.1 p.2 = true) := by
        intro h
        exact hst (by simp [isStartB, h])
      have hspec : ¬ (decide (StartsDownSpec grid p.1 p.2) = true) := by
        simp only [decide_eq_true_eq]
        intro h
        exact hsd ((startsDownWord_iff grid p.1 p.2).2 h)
      have hc1 : 1 + countStarts grid pre = 1 + countStarts grid (pre ++ [p]) := by omega
      rw [specDownFrom, if_neg hst, hc1, ih (pre ++ [p]) hnext]
      simp only [List.filter_cons]
      rw [if_neg hspec]

end NumberingUtils

namespace NumberingUtils

/-- Reading `cellNumbers[r][c]` (out-of-range reads as `none`). -/
def getNum (cn : List (List (Option Nat))) (r c : Nat) : Option Nat :=
  ((cn[r]?).bind (fun rowL => rowL[c]?)).join

/-- The `cellNumbers` matrix keeps the `height × width` shape. -/
def Shaped (cn : List (List (Option Nat))) (h w : Nat) : Prop :=
  cn.length = h ∧ ∀ rowL ∈ cn, rowL.length = w

theorem shaped_replicate (h w : Nat) :
    Shaped (List.replicate h (List.replicate w (none : Option Nat))) h w := by
  constructor
  · simp
  · intro rowL hrow
    rw [List.eq_of_mem_replicate hrow]
    simp

theorem setNum_shaped {cn : List (List (Option Nat))} {h w : Nat}
    (hs : Shaped cn h w) (r c : Nat) (v : Option Nat) :
    Shaped (setNum cn r c v) h w := by
  unfold setNum
  cases hrow : cn[r]? with
  | none => exact hs
  | some rowL =>
    constructor
    · rw [List.length_set]; exact hs.1
    · intro rowL2 hmem
      rcases List.mem_or_eq_of_mem_set hmem with hmem2 | heq
      · exact hs.2 rowL2 hmem2
      · subst heq
        rw [List.length_set]
        obtain ⟨hlt, hget⟩ := List.getElem?_eq_some_iff.1 hrow
        exact hs.2 rowL (hget ▸ List.getElem_mem hlt)

theorem getNum_setNum_other {cn : List (List (Option Nat))} {a b r c : Nat}
    (hne : a ≠ r ∨ b ≠ c) (v : Option Nat) :
    getNum (setNum cn a b v) r c = getNum cn r c := by
  unfold getNum setNum
  cases hrow : cn[a]? with
  | none => rfl
  | some rowL =>
    by_cases har : a = r
    · subst har
      rcases hne with hne | hne
      · exact absurd rfl hne
      · have halt : a < cn.length := (List.getElem?_eq_some_iff.1 hrow).1
        rw [List.getElem?_set_self halt, hrow]
        simp only [Option.some_bind]
        rw [List.getElem?_set_ne hne]
    · rw [List.getElem?_set_ne har]

theorem getNum_setNum_self {cn : List (List (Option Nat))} {h w r c : Nat}
    (hs : Shaped cn h w) (hr : r < h) (hc : c < w) (v : Option Nat) :
    getNum (setNum cn r c v) r c = v := by
  unfold getNum setNum
  have hrlt : r < cn.length := by rw [hs.1]; exact hr
  cases hrow : cn[r]? with
  | none =>
    rw [List.getElem?_eq_none_iff] at hrow
    omega
  | some rowL =>
    rw [List.getElem?_set_self hrlt]
    simp only [Option.some_bind]
    have hclt : c < rowL.length := by
      obtain ⟨hlt, hget⟩ := List.getElem?_eq_some_iff.1 hrow
      rw [hs.2 rowL (hget ▸ List.getElem_mem hlt)]
      exact hc
    rw [List.getElem?_set_self hclt]
    rfl

end NumberingUtils

namespace NumberingUtils

theorem applyNumbers_shaped (grid : Grid) {h w : Nat} :
    ∀ (ps : List (Nat × Nat)) (n : Nat) {cn : List (List (Option Nat))},
      Shaped cn h w → Shaped (applyNumbers grid n ps cn) h w := by
  intro ps
  induction ps with
  | nil => intro n cn hs; exact hs
  | cons p ps ih =>
    intro n cn hs
    rw [applyNumbers]
    by_cases hst : isStartB grid p = true
    · rw [if_pos hst]
      exact ih (n + 1) (setNum_shaped hs p.1 p.2 (some n))
    · rw [if_neg hst]
      exact ih n hs

theorem getNum_applyNumbers_not_mem (grid : Grid) {r c : Nat} :
    ∀ (ps : List (Nat × Nat)) (n : Nat) (cn : List (List (Option Nat))),
      (r, c) ∉ ps →
      getNum (applyNumbers grid n ps cn) r c = getNum cn r c := by
  intro ps
  induction ps with
  | nil => intro n cn _; rfl
  | cons p ps ih =>
    intro n cn hmem
    have hp : p ≠ (r, c) := fun h => hmem (h ▸ List.mem_cons_self _ _)
    have hne : p.1 ≠ r ∨ p.2 ≠ c := by
      by_contra hcon
      push_neg at hcon
      exact hp (Prod.ext hcon.1 hcon.2)
    have hmem2 : (r, c) ∉ ps := fun h => hmem (List.mem_cons_of_mem _ h)
    rw [applyNumbers]
    by_cases hst : isStartB grid p = true
    · rw [if_pos hst, ih (n + 1) _ hmem2, getNum_setNum_other hne]
    · rw [if_neg hst, ih n _ hmem2]

theorem getNum_applyNumbers_mem (grid : Grid) {h w r c : Nat}
    (hr : r < h) (hc : c < w) :
    ∀ (l₁ l₂ : List (Nat × Nat)) (n : Nat) (cn : List (List (Option Nat))),
      Shaped cn h w → (r, c) ∉ l₁ → (r, c) ∉ l₂ →
      getNum (applyNumbers grid n (l₁ ++ (r, c) :: l₂) cn) r c =
        if isStartB grid (r, c) then some (n + countStarts grid l₁)
        else getNum cn r c := by
  intro l₁
  induction l₁ with
  | nil =>
    intro l₂ n cn hs _ hmem2
    rw [List.nil_append, applyNumbers]
    by_cases hst : isStartB grid (r, c) = true
    · rw [if_pos hst, if_pos hst,
        getNum_applyNumbers_not_mem grid l₂ (n + 1) _ hmem2,
        getNum_setNum_self hs hr hc]
      simp [countStarts]
    · rw [if_neg hst, if_neg hst, getNum_applyNumbers_not_mem grid l₂ n _ hmem2]
  | cons q l₁ ih =>
    intro l₂ n cn hs hmem1 hmem2
    have hq : q ≠ (r, c) := fun h => hmem1 (h ▸ List.mem_cons_self _ _)
    have hne : q.1 ≠ r ∨ q.2 ≠ c := by
      by_contra hcon
      push_neg at hcon
      exact hq (Prod.ext hcon.1 hcon.2)
    have hmem1' : (r, c) ∉ l₁ := fun h => hmem1 (List.mem_cons_of_mem _ h)
    rw [List.cons_append, applyNumbers]
    by_cases hst : isStartB grid q = true
    · rw [if_pos hst,
        ih l₂ (n + 1) _ (setNum_shaped hs q.1 q.2 (some n)) hmem1' hmem2]
      have hcount : countStarts grid (q :: l₁) = countStarts grid l₁ + 1 := by
        unfold countStarts
        rw [List.filter_cons, if_pos hst]
        simp [Nat.add_comm]
      rw [hcount]
      by_cases hstc : isStartB grid (r, c) = true
      · rw [if_pos hstc, if_pos hstc]
        congr 1
        omega
      · rw [if_neg hstc, if_neg hstc, getNum_setNum_other hne]
    · rw [if_neg hst, ih l₂ n _ hs hmem1' hmem2]
      have hcount : countStarts grid (q :: l₁) = countStarts grid l₁ := by
        unfold countStarts
        rw [List.filter_cons, if_neg hst]
      rw [hcount]

end NumberingUtils

namespace NumberingUtils

theorem getNum_eq_getElem {X : List (List (Option Nat))} {r c : Nat}
    (hr : r < X.length) (hc : c < X[r].length) :
    getNum X r c = X[r][c] := by
  unfold getNum
  rw [List.getElem?_eq_getElem hr]
  simp only [Option.some_bind]
  rw [List.getElem?_eq_getElem hc]
  rfl

theorem shaped_ext {X Y : List (List (Option Nat))} {h w : Nat}
    (hX : Shaped X h w) (hY : Shaped Y h w)
    (hpt : ∀ r < h, ∀ c < w, getNum X r c = getNum Y r c) : X = Y := by
  apply List.ext_getElem (by rw [hX.1, hY.1])
  intro r hr1 hr2
  apply List.ext_getElem
  · rw [hX.2 _ (List.getElem_mem hr1), hY.2 _ (List.getElem_mem hr2)]
  intro c hc1 hc2
  have hrh : r < h := by rw [← hX.1]; exact hr1
  have hcw : c < w := by rw [← hX.2 _ (List.getElem_mem hr1)]; exact hc1
  have hpt2 := hpt r hrh c hcw
  rw [getNum_eq_getElem hr1 hc1, getNum_eq_getElem hr2 hc2] at hpt2
  exact hpt2

theorem scan_split {height width : Nat} {p : Nat × Nat}
    (hmem : p ∈ scanPositions height width) :
    ∃ l₁ l₂, scanPositions height width = l₁ ++ p :: l₂ ∧ p ∉ l₁ ∧ p ∉ l₂ := by
  obtain ⟨l₁, l₂, heq⟩ := List.append_of_mem hmem
  have hnd := nodup_scanPositions height width
  rw [heq, List.nodup_append] at hnd
  refine ⟨l₁, l₂, heq, ?_, ?_⟩
  · intro hmem1
    exact hnd.2.2 hmem1 (List.mem_cons_self _ _)
  · exact (List.nodup_cons.1 hnd.2.1).1

theorem getNum_replicate (h w r c : Nat) :
    getNum (List.replicate h (List.replicate w (none : Option Nat))) r c = none := by
  unfold getNum
  rw [List.getElem?_replicate]
  by_cases hr : r < h
  · rw [if_pos hr]
    simp only [Option.some_bind]
    rw [List.getElem?_replicate]
    by_cases hc : c < w
    · rw [if_pos hc]; rfl
    · rw [if_neg hc]; rfl
  · rw [if_neg hr]; rfl

theorem shaped_specCellNumbers (grid : Grid) :
    Shaped (specCellNumbers grid) (gridHeight grid) (gridWidth grid) := by
  constructor
  · simp [specCellNumbers]
  · intro rowL hmem
    simp only [specCellNumbers, List.mem_map] at hmem
    obtain ⟨r, _, rfl⟩ := hmem
    simp

theorem getNum_specCellNumbers (grid : Grid) {r c : Nat}
    (hr : r < gridHeight grid) (hc : c < gridWidth grid) :
    getNum (specCellNumbers grid) r c =
      if StartsEitherSpec grid (r, c) then some (specNumber grid (r, c)) else none := by
  unfold getNum specCellNumbers
  rw [List.getElem?_map, List.getElem?_range hr]
  simp only [Option.map_some', Option.some_bind]
  rw [List.getElem?_map, List.getElem?_range hc]
  simp only [Option.map_some', Option.some_bind]
  rfl

theorem applyNumbers_eq_spec (grid : Grid) (hg : Rectangular grid) :
    applyNumbers grid 1 (scanPositions (gridHeight grid) (gridWidth grid))
      (List.replicate (gridHeight grid) (List.replicate (gridWidth grid) none)) =
      specCellNumbers grid := by
  apply shaped_ext (applyNumbers_shaped grid _ 1 (shaped_replicate _ _))
    (shaped_specCellNumbers grid)
  intro r hr c hc
  have hmem : (r, c) ∈ scanPositions (gridHeight grid) (gridWidth grid) :=
    (mem_scanPositions _ _ _).2 ⟨hr, hc⟩
  obtain ⟨l₁, l₂, heq, h1, h2⟩ := scan_split hmem
  rw [heq, getNum_applyNumbers_mem grid hr hc l₁ l₂ 1 _ (shaped_replicate _ _) h1 h2]
  rw [getNum_specCellNumbers grid hr hc]
  have hnum : specNumber grid (r, c) = 1 + countStarts grid l₁ :=
    specNumber_eq_prefix grid hg heq
  by_cases hst : isStartB grid (r, c) = true
  · rw [if_pos hst, if_pos ((isStartB_iff grid hg (r, c)).1 hst), hnum]
  · rw [if_neg hst, if_neg (fun hsp => hst ((isStartB_iff grid hg (r, c)).2 hsp)),
      getNum_replicate]

end NumberingUtils

namespace NumberingUtils

theorem specAcrossFrom_one (grid : Grid) (hg : Rectangular grid) :
    specAcrossFrom grid 1 (scanPositions (gridHeight grid) (gridWidth grid)) =
      specAcrossWords grid := by
  have h := specAcrossFrom_eq grid hg
    (scanPositions (gridHeight grid) (gridWidth grid)) [] (by rw [List.nil_append])
  simpa [countStarts, specAcrossWords] using h

theorem specDownFrom_one (grid : Grid) (hg : Rectangular grid) :
    specDownFrom grid 1 (scanPositions (gridHeight grid) (gridWidth grid)) =
      specDownWords grid := by
  have h := specDownFrom_eq grid hg
    (scanPositions (gridHeight grid) (gridWidth grid)) [] (by rw [List.nil_append])
  simpa [countStarts, specDownWords] using h

theorem generateNumbering_eq_spec (grid : Grid) (hg : Rectangular grid) :
    generateNumbering grid =
      ⟨specCellNumbers grid, specAcrossWords grid, specDownWords grid⟩ := by
  by_cases hemp : grid.isEmpty = true
  · have hnil : grid = [] := List.isEmpty_iff.1 hemp
    subst hnil
    rfl
  · unfold generateNumbering
    rw [if_neg hemp]
    dsimp only
    rw [foldl_numberingStep_spec]
    dsimp only
    rw [applyNumbers_eq_spec grid hg, List.nil_append, List.nil_append,
      specAcrossFrom_one grid hg, specDownFrom_one grid hg]

theorem specAcrossFrom_mono (grid : Grid) :
    ∀ (ps : List (Nat × Nat)) (n : Nat),
      (∀ e ∈ specAcrossFrom grid n ps, n ≤ e.number) ∧
      (specAcrossFrom grid n ps).Pairwise (fun a b => a.number < b.number) := by
  intro ps
  induction ps with
  | nil =>
    intro n
    exact ⟨fun e he => absurd he (List.not_mem_nil e), List.Pairwise.nil⟩
  | cons p ps ih =>
    intro n
    rw [specAcrossFrom]
    by_cases hst : isStartB grid p = true
    · rw [if_pos hst]
      by_cases hsa : startsAcrossWord grid p.1 p.2 = true
      · rw [if_pos hsa, List.singleton_append]
        refine ⟨?_, ?_⟩
        · intro e he
          rw [List.mem_cons] at he
          rcases he with rfl | he
          · exact Nat.le_refl _
          · have h2 := (ih (n + 1)).1 e he
            omega
        · refine List.Pairwise.cons ?_ (ih (n + 1)).2
          intro e he
          have h2 := (ih (n + 1)).1 e he
          exact Nat.lt_of_lt_of_le (Nat.lt_succ_self n) h2
      · rw [if_neg hsa, List.nil_append]
        refine ⟨fun e he => ?_, (ih (n + 1)).2⟩
        have h2 := (ih (n + 1)).1 e he
        omega
    · rw [if_neg hst]
      exact ih n

theorem specDownFrom_mono (grid : Grid) :
    ∀ (ps : List (Nat × Nat)) (n : Nat),
      (∀ e ∈ specDownFrom grid n ps, n ≤ e.number) ∧
      (specDownFrom grid n ps).Pairwise (fun a b => a.number < b.number) := by
  intro ps
  induction ps with
  | nil =>
    intro n
    exact ⟨fun e he => absurd he (List.not_mem_nil e), List.Pairwise.nil⟩
  | cons p ps ih =>
    intro n
    rw [specDownFrom]
    by_cases hst : isStartB grid p = true
    · rw [if_pos hst]
      by_cases hsd : startsDownWord grid p.1 p.2 = true
      · rw [if_pos hsd, List.singleton_append]
        refine ⟨?_, ?_⟩
        · intro e he
          rw [List.mem_cons] at he
          rcases he with rfl | he
          · exact Nat.le_refl _
          · have h2 := (ih (n + 1)).1 e he
            omega
        · refine List.Pairwise.cons ?_ (ih (n + 1)).2
          intro e he
          have h2 := (ih (n + 1)).1 e he
          exact Nat.lt_of_lt_of_le (Nat.lt_succ_self n) h2
      · rw [if_neg hsd, List.nil_append]
        refine ⟨fun e he => ?_, (ih (n + 1)).2⟩
        have h2 := (ih (n + 1)).1 e he
        omega
    · rw [if_neg hst]
      exact ih n

end NumberingUtils

namespace NumberingUtils

theorem extractWord_across_len (grid : Grid) (hg : Rectangular grid) {r c : Nat}
    (hs : StartsAcrossSpec grid r c) : 2 ≤ (extractWord grid r c true).length := by
  obtain ⟨h0, _, h2⟩ := hs
  obtain ⟨ch0, hch0⟩ := Option.isSome_iff_exists.1 h0
  obtain ⟨ch1, hch1⟩ := Option.isSome_iff_exists.1 h2
  have hb := cellAt_isSome_bounds hg h2
  have hw : c + 1 < gridWidth grid := by
    have hb2 := hb.2.2.2
    omega
  unfold extractWord
  rw [if_pos rfl]
  obtain ⟨k, hk⟩ : ∃ k, gridWidth grid - c = k + 2 := ⟨gridWidth grid - c - 2, by omega⟩
  rw [hk, extractAcrossGo, if_pos (by omega : c < gridWidth grid), hch0]
  dsimp only
  rw [extractAcrossGo, if_pos hw]
  have hch1' : cellAt grid (r : Int) ((c + 1 : Nat) : Int) = some ch1 := by
    push_cast
    exact hch1
  rw [hch1']
  dsimp only
  simp only [List.length_cons]
  omega

theorem extractWord_down_len (grid : Grid) (hg : Rectangular grid) {r c : Nat}
    (hs : StartsDownSpec grid r c) : 2 ≤ (extractWord grid r c false).length := by
  obtain ⟨h0, _, h2⟩ := hs
  obtain ⟨ch0, hch0⟩ := Option.isSome_iff_exists.1 h0
  obtain ⟨ch1, hch1⟩ := Option.isSome_iff_exists.1 h2
  have hb := cellAt_isSome_bounds hg h2
  have hh : r + 1 < gridHeight grid := by
    have hb2 := hb.2.1
    omega
  unfold extractWord
  rw [if_neg (by simp : ¬ (false = true))]
  obtain ⟨k, hk⟩ : ∃ k, gridHeight grid - r = k + 2 := ⟨gridHeight grid - r - 2, by omega⟩
  rw [hk, extractDownGo, if_pos (by omega : r < gridHeight grid), hch0]
  dsimp only
  rw [extractDownGo, if_pos hh]
  have hch1' : cellAt grid ((r + 1 : Nat) : Int) (c : Int) = some ch1 := by
    push_cast
    exact hch1
  rw [hch1']
  dsimp only
  simp only [List.length_cons]
  omega

end NumberingUtils

namespace NumberingUtils

/-- Claim C5: `generateNumbering` scans every cell left-to-right, top-to-bottom;
a cell starts an Across entry iff it holds a letter, its left neighbor is out of
bounds or empty, and its right neighbor holds a letter (symmetrically for Down
with up/down neighbors, so every emitted entry has length at least 2); each cell
that starts either kind of entry receives the next number from one shared
sequence incremented once per numbered cell — so every entry's number is the
scan-order sequence number of its start cell, a cell starting both an Across and
a Down entry carries a single number shared by both entries — and `acrossWords`
and `downWords` are ordered by strictly ascending number. -/
theorem generateNumbering_numbering_spec (grid : Grid) (hg : Rectangular grid) :
    generateNumbering grid =
      ⟨specCellNumbers grid, specAcrossWords grid, specDownWords grid⟩ ∧
    (∀ row col, startsAcrossWord grid row col = true ↔ StartsAcrossSpec grid row col) ∧
    (∀ row col, startsDownWord grid row col = true ↔ StartsDownSpec grid row col) ∧
    (generateNumbering grid).acrossWords.Pairwise (fun a b => a.number < b.number) ∧
    (generateNumbering grid).downWords.Pairwise (fun a b => a.number < b.number) ∧
    (∀ e ∈ (generateNumbering grid).acrossWords,
      e.number = specNumber grid (e.row, e.col) ∧ 2 ≤ e.word.length) ∧
    (∀ e ∈ (generateNumbering grid).downWords,
      e.number = specNumber grid (e.row, e.col) ∧ 2 ≤ e.word.length) := by
  have heq := generateNumbering_eq_spec grid hg
  refine ⟨heq, fun row col => startsAcrossWord_iff grid hg row col,
    fun row col => startsDownWord_iff grid row col, ?_, ?_, ?_, ?_⟩
  · rw [heq]
    dsimp only
    rw [← specAcrossFrom_one grid hg]
    exact (specAcrossFrom_mono grid _ 1).2
  · rw [heq]
    dsimp only
    rw [← specDownFrom_one grid hg]
    exact (specDownFrom_mono grid _ 1).2
  · rw [heq]
    dsimp only
    intro e he
    unfold specAcrossWords at he
    rw [List.mem_map] at he
    obtain ⟨p, hp, rfl⟩ := he
    rw [List.mem_filter] at hp
    have hsp : StartsAcrossSpec grid p.1 p.2 := by simpa using hp.2
    exact ⟨rfl, extractWord_across_len grid hg hsp⟩
  · rw [heq]
    dsimp only
    intro e he
    unfold specDownWords at he
    rw [List.mem_map] at he
    obtain ⟨p, hp, rfl⟩ := he
    rw [List.mem_filter] at hp
    have hsp : StartsDownSpec grid p.1 p.2 := by simpa using hp.2
    exact ⟨rfl, extractWord_down_len grid hg hsp⟩

/-- Witness for C5 on a concrete 2×2 grid with one shared Across/Down start. -/
theorem generateNumbering_numbering_spec_witness :
    Rectangular [[some 'A', some 'B'], [some 'C', none]] ∧
    generateNumbering [[some 'A', some 'B'], [some 'C', none]] =
      ⟨specCellNumbers [[some 'A', some 'B'], [some 'C', none]],
       specAcrossWords [[some 'A', some 'B'], [some 'C', none]],
       specDownWords [[some 'A', some 'B'], [some 'C', none]]⟩ :=
  ⟨by decide, (generateNumbering_numbering_spec _ (by decide)).1⟩

end NumberingUtils

theorem setCell_length (g : Grid) (r c : Int) (ch : Char) :
    (setCell g r c ch).length = g.length := by
  unfold setCell
  by_cases hpos : 0 ≤ r ∧ 0 ≤ c
  · rw [if_pos hpos]
    cases hrow : g[r.toNat]? with
    | none => rfl
    | some rowL =>
      dsimp only
      apply List.length_set
  · rw [if_neg hpos]

theorem setCell_rows {g : Grid} {r c : Int} {ch : Char} :
    ∀ rowL ∈ setCell g r c ch, ∃ rowL0 ∈ g, rowL.length = rowL0.length := by
  intro rowL hmem
  unfold setCell at hmem
  by_cases hpos : 0 ≤ r ∧ 0 ≤ c
  · rw [if_pos hpos] at hmem
    cases hrow : g[r.toNat]? with
    | none =>
      rw [hrow] at hmem
      exact ⟨rowL, hmem, rfl⟩
    | some rowL0 =>
      rw [hrow] at hmem
      dsimp only at hmem
      rcases List.mem_or_eq_of_mem_set hmem with hmem2 | heq
      · exact ⟨rowL, hmem2, rfl⟩
      · subst heq
        obtain ⟨hlt, hget⟩ := List.getElem?_eq_some_iff.1 hrow
        exact ⟨rowL0, hget ▸ List.getElem_mem hlt, by rw [List.length_set]⟩
  · rw [if_neg hpos] at hmem
    exact ⟨rowL, hmem, rfl⟩

theorem cellAt_setCell_cases {g : Grid} {r c : Int} {ch : Char} {r' c' : Int} {ch' : Char}
    (h : cellAt (setCell g r c ch) r' c' = some ch') :
    cellAt g r' c' = some ch' ∨ (ch' = ch ∧ r' = r ∧ c' = c) := by
  unfold setCell at h
  by_cases hpos : 0 ≤ r ∧ 0 ≤ c
  · rw [if_pos hpos] at h
    cases hrow : g[r.toNat]? with
    | none =>
      rw [hrow] at h
      exact Or.inl h
    | some rowL =>
      rw [hrow] at h
      dsimp only at h
      unfold cellAt at h ⊢
      by_cases hpos' : 0 ≤ r' ∧ 0 ≤ c'
      · rw [if_pos hpos'] at h ⊢
        by_cases hr : r'.toNat = r.toNat
        · rw [hr] at h ⊢
          rw [List.getElem?_set_self (List.getElem?_eq_some_iff.1 hrow).1] at h
          simp only [Option.some_bind] at h
          by_cases hc : c'.toNat = c.toNat
          · rw [hc] at h
            by_cases hclt : c.toNat < rowL.length
            · rw [List.getElem?_set_self hclt] at h
              have hch : ch = ch' := by simpa using h
              exact Or.inr ⟨hch.symm, by omega, by omega⟩
            · have hnone : (rowL.set c.toNat (some ch))[c.toNat]? = none := by
                rw [List.getElem?_eq_none_iff, List.length_set]
                omega
              rw [hnone] at h
              simp at h
          · rw [List.getElem?_set_ne (fun hh => hc hh.symm)] at h
            left
            rw [hrow]
            simp only [Option.some_bind]
            exact h
        · rw [List.getElem?_set_ne (fun hh => hr hh.symm)] at h
          exact Or.inl h
      · rw [if_neg hpos'] at h
        exact absurd h (by simp)
  · rw [if_neg hpos] at h
    exact Or.inl h

namespace AppJsx

/-- The saved-layout JSON fields `handleLoad` reads to reconstruct the grid:
`data.gridWidth`, `data.gridHeight`, `data.placements`. -/
structure SavedData where
  gridWidth : Nat
  gridHeight : Nat
  placements : List Placement
deriving DecidableEq

/-- One iteration of `handleLoad`'s inner letter loop: computes the letter's
cell and writes it if it passes the source's only guard,
`r < data.gridHeight && c < data.gridWidth`.  (There is no lower-bound check;
`setCell` ignores a negative-index write, matching the only negative case a
JS run completes — a negative column, which writes a property no cell read
ever sees.  A negative row would throw in JS, so saved data is coordinatewise
non-negative in every completed run.) -/
def loadStep (data : SavedData) (p : Placement) (acc : Grid) (i : Nat) : Grid :=
  let r : Int := if p.isHorizontal then p.row else p.row + (i : Int)
  let c : Int := if p.isHorizontal then p.col + (i : Int) else p.col
  if r < (data.gridHeight : Int) ∧ c < (data.gridWidth : Int) then
    match p.word[i]? with
    | some ch => setCell acc r c ch
    | none => acc
  else acc

/-- `handleLoad`'s loop over one placement's letters (`for (let i = 0; ...)`). -/
def loadPlacement (data : SavedData) (g : Grid) (p : Placement) : Grid :=
  (List.range p.word.length).foldl (loadStep data p) g

/-- The grid `handleLoad` reconstructs from saved data (`loadedGrid`). -/
def handleLoadGrid (data : SavedData) : Grid :=
  data.placements.foldl (loadPlacement data) (createEmptyGrid data.gridWidth data.gridHeight)

/-- Every letter in the grid was written by the guarded reconstruction loop:
it is letter `i` of some saved placement, at that placement's computed cell,
and that cell passed the upper-bound-only guard. -/
def Provenance (data : SavedData) (g : Grid) : Prop :=
  ∀ r c : Int, ∀ ch : Char, cellAt g r c = some ch →
    ∃ p ∈ data.placements, ∃ i : Nat, p.word[i]? = some ch ∧
      r = (if p.isHorizontal then p.row else p.row + (i : Int)) ∧
      c = (if p.isHorizontal then p.col + (i : Int) else p.col) ∧
      r < (data.gridHeight : Int) ∧ c < (data.gridWidth : Int)

theorem provenance_loadStep (data : SavedData) {p : Placement} (hp : p ∈ data.placements)
    (i : Nat) {g : Grid} (hg : Provenance data g) :
    Provenance data (loadStep data p g i) := by
  unfold loadStep
  dsimp only
  by_cases hguard : (if p.isHorizontal then p.row else p.row + (i : Int)) <
      (data.gridHeight : Int) ∧
      (if p.isHorizontal then p.col + (i : Int) else p.col) < (data.gridWidth : Int)
  · rw [if_pos hguard]
    cases hw : p.word[i]? with
    | none => exact hg
    | some ch =>
      intro r c ch' hcell
      rcases cellAt_setCell_cases hcell with hold | ⟨rfl, rfl, rfl⟩
      · exact hg r c ch' hold
      · exact ⟨p, hp, i, hw, rfl, rfl, hguard.1, hguard.2⟩
  · rw [if_neg hguard]
    exact hg

theorem provenance_loadPlacement (data : SavedData) {p : Placement}
    (hp : p ∈ data.placements) :
    ∀ (idxs : List Nat) (g : Grid), Provenance data g →
      Provenance data (idxs.foldl (loadStep data p) g) := by
  intro idxs
  induction idxs with
  | nil => intro g hg; exact hg
  | cons i idxs ih =>
    intro g hg
    rw [List.foldl_cons]
    exact ih _ (provenance_loadStep data hp i hg)

theorem provenance_foldl (data : SavedData) :
    ∀ (pls : List Placement), (∀ p ∈ pls, p ∈ data.placements) →
      ∀ (g : Grid), Provenance data g →
      Provenance data (pls.foldl (loadPlacement data) g) := by
  intro pls
  induction pls with
  | nil => intro _ g hg; exact hg
  | cons p pls ih =>
    intro hsub g hg
    rw [List.foldl_cons]
    refine ih (fun q hq => hsub q (List.mem_cons_of_mem _ hq)) _ ?_
    unfold loadPlacement
    exact provenance_loadPlacement data (hsub p (List.mem_cons_self _ _)) _ g hg

/-- The grid's `height × width` shape, in terms of the saved dimensions. -/
def LoadShape (data : SavedData) (g : Grid) : Prop :=
  g.length = data.gridHeight ∧ ∀ rowL ∈ g, rowL.length = data.gridWidth

theorem loadShape_loadStep (data : SavedData) (p : Placement) (i : Nat) {g : Grid}
    (hg : LoadShape data g) : LoadShape data (loadStep data p g i) := by
  unfold loadStep
  dsimp only
  by_cases hguard : (if p.isHorizontal then p.row else p.row + (i : Int)) <
      (data.gridHeight : Int) ∧
      (if p.isHorizontal then p.col + (i : Int) else p.col) < (data.gridWidth : Int)
  · rw [if_pos hguard]
    cases hw : p.word[i]? with
    | none => exact hg
    | some ch =>
      constructor
      · rw [setCell_length]
        exact hg.1
      · intro rowL hmem
        obtain ⟨rowL0, hmem0, hlen⟩ := setCell_rows rowL hmem
        rw [hlen]
        exact hg.2 rowL0 hmem0
  · rw [if_neg hguard]
    exact hg

theorem loadShape_loadPlacement (data : SavedData) (p : Placement) :
    ∀ (idxs : List Nat) (g : Grid), LoadShape data g →
      LoadShape data (idxs.foldl (loadStep data p) g) := by
  intro idxs
  induction idxs with
  | nil => intro g hg; exact hg
  | cons i idxs ih =>
    intro g hg
    rw [List.foldl_cons]
    exact ih _ (loadShape_loadStep data p i hg)

theorem loadShape_foldl (data : SavedData) :
    ∀ (pls : List Placement) (g : Grid), LoadShape data g →
      LoadShape data (pls.foldl (loadPlacement data) g) := by
  intro pls
  induction pls with
  | nil => intro g hg; exact hg
  | cons p pls ih =>
    intro g hg
    rw [List.foldl_cons]
    refine ih _ ?_
    unfold loadPlacement
    exact loadShape_loadPlacement data p _ g hg

end AppJsx

/-- Counterexample to C8: loading saved data whose single placement "AB" at
(row 0, col 1, horizontal) overflows the stated 2×2 grid does not fail and
does not leave the grid untouched — `handleLoad` writes the in-range letter
'A' and silently drops the out-of-range 'B', applying exactly the partial
reconstruction the claim rules out, with no failure reported to the caller. -/
theorem handleLoad_silent_partial_reconstruction :
    AppJsx.handleLoadGrid ⟨2, 2, [⟨['A', 'B'], 0, 1, true⟩]⟩ =
      [[none, some 'A'], [none, none]] := by decide

/-- Claim C8 (amended): `handleLoad` performs no validation and reports no
failure.  For every saved data it totally reconstructs a grid of the stated
dimensions, checking only the per-letter upper bounds
`r < data.gridHeight && c < data.gridWidth`: every letter passing that guard
is written — even when other letters of the same placement fall out of
bounds, which are silently dropped. -/
theorem handleLoad_no_validation (data : AppJsx.SavedData) :
    (AppJsx.handleLoadGrid data).length = data.gridHeight ∧
    (∀ rowL ∈ AppJsx.handleLoadGrid data, rowL.length = data.gridWidth) ∧
    AppJsx.Provenance data (AppJsx.handleLoadGrid data) := by
  have hshape : AppJsx.LoadShape data (AppJsx.handleLoadGrid data) := by
    unfold AppJsx.handleLoadGrid
    apply AppJsx.loadShape_foldl
    constructor
    · simp [createEmptyGrid]
    · intro rowL hmem
      rw [List.eq_of_mem_replicate hmem]
      simp
  have hprov : AppJsx.Provenance data (AppJsx.handleLoadGrid data) := by
    unfold AppJsx.handleLoadGrid
    apply AppJsx.provenance_foldl data data.placements (fun p hp => hp)
    intro r c ch hcell
    rw [cellAt_createEmptyGrid] at hcell
    exact absurd hcell (by simp)
  exact ⟨hshape.1, hshape.2, hprov⟩

namespace GenJS

/-- A candidate of `crosswordGenerator.js`'s `findValidPlacements`.  The
first-word record omits `distanceFromCenter` (JS `undefined`); `none` encodes
that missing field and `some d` stores TWICE the source's value, as in
`Part000.Candidate`.  (The source's `isValidPlacement` differs from
`part_000`'s only by the local `hasIntersection`, which is assigned but never
read, so the embedding shares `Part000.isValidPlacement`; likewise
`createEmptyGrid`, `placeWord`, `scorePlacement`'s formula,
`countIntersections` and the distance computation are textually identical and
shared.) -/
structure CandidateJ where
  row : Int
  col : Int
  isHorizontal : Bool
  intersections : Nat
  distanceFromCenter : Option Int
deriving DecidableEq

/-- Twice the source's `scorePlacement` on this revision's records.  A missing
`distanceFromCenter` (JS `undefined`) makes the source's score `NaN`; it is
read as 0 here, which is sound because a `none` field occurs only on the
first-word candidate, which is only ever in a singleton list, whose sort never
invokes the comparator — the program never observes such a score. -/
def scoreJ (p : CandidateJ) : Int :=
  200 * p.intersections - p.distanceFromCenter.getD 0

instance : DecidableRel (fun a b : CandidateJ => scoreJ b ≤ scoreJ a) :=
  fun _ _ => Int.decLe _ _

/-- Source `findValidPlacements(grid, word, placements)` of
`crosswordGenerator.js`: the first-word branch is selected internally by
`placements.length === 0`, is always horizontal centered, and its record has
no `distanceFromCenter`; the general branch pushes every valid candidate with
NO de-duplication. -/
def findValidPlacementsJ (grid : Grid) (word : Word) (placements : List Placement) :
    List CandidateJ :=
  if placements.isEmpty then
    let row : Int := gridHeight grid / 2
    let col : Int := ((gridWidth grid : Int) - word.length).fdiv 2
    if Part000.isValidPlacement grid word row col true then
      [{ row := row, col := col, isHorizontal := true, intersections := 0,
         distanceFromCenter := none }]
    else []
  else
    placements.foldl (fun acc placement =>
      (List.range word.length).foldl (fun acc (i : Nat) =>
        (List.range placement.word.length).foldl (fun acc (j : Nat) =>
          if word.get? i = placement.word.get? j then
            let isHorizontal := !placement.isHorizontal
            let row : Int := if isHorizontal then placement.row + j else placement.row - i
            let col : Int := if isHorizontal then placement.col - i else placement.col + j
            if Part000.isValidPlacement grid word row col isHorizontal then
              acc ++
                [{ row := row, col := col, isHorizontal := isHorizontal,
                   intersections := Part000.countIntersections grid word row col isHorizontal,
                   distanceFromCenter :=
                     some (Part000.distanceFromCenter2 grid word row col isHorizontal) }]
            else acc
          else acc) acc) acc) []

/-- The selection after a successful search: stable sort by descending score,
then element 0. -/
def chooseBestJ (validPlacements : List CandidateJ) : Option CandidateJ :=
  (List.insertionSort (fun a b => scoreJ b ≤ scoreJ a) validPlacements).head?

/-- The loop body of this revision's first pass (identical to `part_000`'s up
to the different `findValidPlacements`). -/
def passOneStepJ (st : LayoutResult) (word : Word) : LayoutResult :=
  let validPlacements := findValidPlacementsJ st.grid word st.placements
  match chooseBestJ validPlacements with
  | none => { st with unplacedWords := st.unplacedWords ++ [word] }
  | some best =>
    { grid := placeWord st.grid word best.row best.col best.isHorizontal
      placements := st.placements ++ [⟨word, best.row, best.col, best.isHorizontal⟩]
      unplacedWords := st.unplacedWords }

/-- The loop body of this revision's retry sweep: unlike `part_000`, the call
`findValidPlacements(grid, word, placements)` re-enters the centered
first-word branch whenever `placements` is still empty. -/
def retryStepJ (st : LayoutResult × Bool) (word : Word) : LayoutResult × Bool :=
  let validPlacements := findValidPlacementsJ st.1.grid word st.1.placements
  match chooseBestJ validPlacements with
  | none => (⟨st.1.grid, st.1.placements, st.1.unplacedWords ++ [word]⟩, st.2)
  | some best =>
    (⟨placeWord st.1.grid word best.row best.col best.isHorizontal,
      st.1.placements ++ [⟨word, best.row, best.col, best.isHorizontal⟩],
      st.1.unplacedWords⟩, true)

/-- One retry sweep of this revision. -/
def retrySweepJ (grid : Grid) (placements : List Placement) (unplaced : List Word) :
    LayoutResult × Bool :=
  unplaced.foldl retryStepJ (⟨grid, placements, []⟩, false)

/-- This revision's `while (madeProgress && unplacedWords.length > 0)` loop,
fueled exactly as `Part000.retryLoop`. -/
def retryLoopJ : Nat → Grid → List Placement → List Word → LayoutResult
  | 0, grid, placements, unplaced => ⟨grid, placements, unplaced⟩
  | fuel + 1, grid, placements, unplaced =>
    if unplaced.isEmpty then ⟨grid, placements, unplaced⟩
    else
      let out := retrySweepJ grid placements unplaced
      if out.2 then retryLoopJ fuel out.1.grid out.1.placements out.1.unplacedWords
      else out.1

/-- Source `generateCrossword(words, width, height)` of
`crosswordGenerator.js`: clean, sort longest-first, one first pass, then the
retry loop. -/
def generateCrossword (words : List Word) (width height : Nat) : LayoutResult :=
  let sortedWords := sortByLengthDesc (cleanWords words)
  let p1 := sortedWords.foldl passOneStepJ ⟨createEmptyGrid width height, [], []⟩
  retryLoopJ p1.unplacedWords.length p1.grid p1.placements p1.unplacedWords

/-- Reading this revision's candidate as a `part_000` candidate: a missing
distance reads as 0 (never score-observed, see `scoreJ`). -/
def toC (p : CandidateJ) : Part000.Candidate :=
  ⟨p.row, p.col, p.isHorizontal, p.intersections, p.distanceFromCenter.getD 0⟩

end GenJS

theorem foldl_rel {α β γ : Type} (R : β → γ → Prop) (f : β → α → β) (g : γ → α → γ)
    (hstep : ∀ b c a, R b c → R (f b a) (g c a)) :
    ∀ (l : List α) (b : β) (c : γ), R b c → R (l.foldl f b) (l.foldl g c) := by
  intro l
  induction l with
  | nil => intro b c h; exact h
  | cons x xs ih => intro b c h; exact ih _ _ (hstep b c x h)

namespace GenJS

/-- `part_000`'s de-duplication by `(row, col, isHorizontal)`, as a standalone
pass keeping first occurrences. -/
def dedupKey (l : List Part000.Candidate) : List Part000.Candidate :=
  l.foldl (fun acc p =>
    if acc.any (fun q =>
        decide (q.row = p.row) && decide (q.col = p.col) &&
          decide (q.isHorizontal = p.isHorizontal)) then acc
    else acc ++ [p]) []

theorem dedupKey_append_one (l : List Part000.Candidate) (p : Part000.Candidate) :
    dedupKey (l ++ [p]) =
      if (dedupKey l).any (fun q =>
          decide (q.row = p.row) && decide (q.col = p.col) &&
            decide (q.isHorizontal = p.isHorizontal)) then dedupKey l
      else dedupKey l ++ [p] := by
  unfold dedupKey
  rw [List.foldl_append]
  rfl

theorem dedupKey_subset (l : List Part000.Candidate) : ∀ x ∈ dedupKey l, x ∈ l := by
  induction l using List.reverseRecOn with
  | nil => intro x hx; exact absurd hx (List.not_mem_nil x)
  | append_singleton l p ih =>
    intro x hx
    rw [dedupKey_append_one] at hx
    split at hx
    · exact List.mem_append_left _ (ih x hx)
    · rcases List.mem_append.1 hx with hx2 | hx2
      · exact List.mem_append_left _ (ih x hx2)
      · exact List.mem_append_right _ hx2

theorem firstMaxBy_append_one_none {α : Type} (score : α → Int) {l : List α} (x : α)
    (h : firstMaxBy score l = none) : firstMaxBy score (l ++ [x]) = some x := by
  have hl : l = [] := (firstMaxBy_eq_none_iff score l).1 h
  subst hl
  rfl

theorem firstMaxBy_append_one_some {α : Type} (score : α → Int) :
    ∀ {l : List α} {d : α} (x : α), firstMaxBy score l = some d →
      firstMaxBy score (l ++ [x]) =
        if score d < score x then some x else some d := by
  intro l
  induction l with
  | nil =>
    intro d x h
    exact absurd h (by simp [firstMaxBy])
  | cons c t ih =>
    intro d x h
    rw [firstMaxBy] at h
    rw [List.cons_append, firstMaxBy]
    cases hfmt : firstMaxBy score t with
    | none =>
      have ht : t = [] := (firstMaxBy_eq_none_iff score t).1 hfmt
      subst ht
      rw [hfmt] at h
      dsimp only at h
      cases h
      rw [List.nil_append]
      rw [show firstMaxBy score [x] = some x from rfl]
    | some e =>
      rw [hfmt] at h
      dsimp only at h
      have hx := ih x hfmt
      rw [hx]
      by_cases hce : score c < score e
      · rw [if_pos hce] at h
        have hed := Option.some.inj h
        subst hed
        by_cases hex : score e < score x
        · rw [if_pos hex]
          dsimp only
          rw [if_pos (by omega)]
        · rw [if_neg hex]
          dsimp only
          rw [if_pos hce]
      · rw [if_neg hce] at h
        have hcd := Option.some.inj h
        subst hcd
        by_cases hex : score e < score x
        · rw [if_pos hex]
        · rw [if_neg hex]
          dsimp only
          rw [if_neg hce, if_neg (by omega)]

theorem firstMaxBy_dedupKey (l : List Part000.Candidate)
    (hkey : ∀ p ∈ l, ∀ q ∈ l, p.row = q.row → p.col = q.col →
      p.isHorizontal = q.isHorizontal → p = q) :
    firstMaxBy Part000.scorePlacement (dedupKey l) =
      firstMaxBy Part000.scorePlacement l := by
  induction l using List.reverseRecOn with
  | nil => rfl
  | append_singleton l x ih =>
    have hkey' : ∀ p ∈ l, ∀ q ∈ l, p.row = q.row → p.col = q.col →
        p.isHorizontal = q.isHorizontal → p = q := fun p hp q hq =>
      hkey p (List.mem_append_left _ hp) q (List.mem_append_left _ hq)
    have ih2 := ih hkey'
    rw [dedupKey_append_one]
    by_cases hany : (dedupKey l).any (fun q =>
        decide (q.row = x.row) && decide (q.col = x.col) &&
          decide (q.isHorizontal = x.isHorizontal)) = true
    · rw [if_pos hany]
      obtain ⟨y, hy, hyk⟩ := List.any_eq_true.1 hany
      simp only [Bool.and_eq_true, decide_eq_true_eq] at hyk
      have hyx : y = x := hkey y (List.mem_append_left _ (dedupKey_subset l y hy)) x
        (List.mem_append_right _ (List.mem_singleton_self x)) hyk.1.1 hyk.1.2 hyk.2
      have hxl : x ∈ l := hyx ▸ dedupKey_subset l y hy
      cases hfm : firstMaxBy Part000.scorePlacement l with
      | none =>
        exact absurd ((firstMaxBy_eq_none_iff _ _).1 hfm ▸ hxl) (List.not_mem_nil x)
      | some d =>
        have hdmax := (firstMaxBy_mem_le _ l d hfm).2 x hxl
        rw [firstMaxBy_append_one_some _ x hfm, if_neg (by omega), ih2, hfm]
    · rw [if_neg hany]
      cases hfm : firstMaxBy Part000.scorePlacement l with
      | none =>
        rw [firstMaxBy_append_one_none _ x hfm,
          firstMaxBy_append_one_none _ x (ih2.trans hfm)]
      | some d =>
        rw [firstMaxBy_append_one_some _ x hfm,
          firstMaxBy_append_one_some _ x (ih2.trans hfm)]

theorem firstMaxBy_map {α β : Type} (score : β → Int) (f : α → β) (l : List α) :
    firstMaxBy score (l.map f) = Option.map f (firstMaxBy (fun a => score (f a)) l) := by
  induction l with
  | nil => rfl
  | cons c t ih =>
    rw [List.map_cons, firstMaxBy, firstMaxBy, ih]
    cases hfm : firstMaxBy (fun a => score (f a)) t with
    | none => rfl
    | some d =>
      dsimp only [Option.map_some']
      by_cases h : score (f c) < score (f d)
      · rw [if_pos h, if_pos h]
        rfl
      · rw [if_neg h, if_neg h]
        rfl

/-- The invariant carried through this revision's candidate-collecting folds. -/
def CandInvJ (grid : Grid) (word : Word) (acc : List CandidateJ) : Prop :=
  ∀ x ∈ acc,
    x.intersections = Part000.countIntersections grid word x.row x.col x.isHorizontal ∧
      x.distanceFromCenter =
        some (Part000.distanceFromCenter2 grid word x.row x.col x.isHorizontal)

theorem mem_findValidPlacementsJ_general {grid : Grid} {word : Word}
    {placements : List Placement} {c : CandidateJ}
    (hne : ¬ placements.isEmpty = true)
    (hc : c ∈ findValidPlacementsJ grid word placements) :
    c.intersections = Part000.countIntersections grid word c.row c.col c.isHorizontal ∧
      c.distanceFromCenter =
        some (Part000.distanceFromCenter2 grid word c.row c.col c.isHorizontal) := by
  unfold findValidPlacementsJ at hc
  rw [if_neg hne] at hc
  refine foldl_invariant (CandInvJ grid word) _ placements [] (by simp [CandInvJ]) ?_ c hc
  intro acc placement hacc
  refine foldl_invariant (CandInvJ grid word) _ (List.range word.length) acc hacc ?_
  intro acc2 i hacc2
  refine foldl_invariant (CandInvJ grid word) _ (List.range placement.word.length) acc2 hacc2 ?_
  intro acc3 j hacc3
  dsimp only
  repeat' split
  all_goals
    first
    | exact hacc3
    | (intro x hx
       rcases List.mem_append.1 hx with hx2 | hx2
       · exact hacc3 x hx2
       · rcases List.mem_singleton.1 hx2 with rfl
         exact ⟨rfl, rfl⟩)

theorem key_det_mapped {grid : Grid} {word : Word} {placements : List Placement}
    (hne : ¬ placements.isEmpty = true) :
    ∀ p ∈ (findValidPlacementsJ grid word placements).map toC,
      ∀ q ∈ (findValidPlacementsJ grid word placements).map toC,
      p.row = q.row → p.col = q.col → p.isHorizontal = q.isHorizontal → p = q := by
  intro p hp q hq h1 h2 h3
  rw [List.mem_map] at hp hq
  obtain ⟨p0, hp0, rfl⟩ := hp
  obtain ⟨q0, hq0, rfl⟩ := hq
  obtain ⟨hpi, hpd⟩ := mem_findValidPlacementsJ_general hne hp0
  obtain ⟨hqi, hqd⟩ := mem_findValidPlacementsJ_general hne hq0
  unfold toC at h1 h2 h3 ⊢
  dsimp only at h1 h2 h3 ⊢
  rw [hpi, hqi, hpd, hqd, h1, h2, h3]

theorem findValidPlacements_general_eq (grid : Grid) (word : Word)
    (placements : List Placement) (hne : ¬ placements.isEmpty = true) (fwh : Bool) :
    Part000.findValidPlacements grid word placements false fwh =
      dedupKey ((findValidPlacementsJ grid word placements).map toC) := by
  unfold Part000.findValidPlacements findValidPlacementsJ
  rw [if_neg (by simp), if_neg hne]
  refine foldl_rel (fun (acc : List Part000.Candidate) (jacc : List CandidateJ) =>
      acc = dedupKey (jacc.map toC)) _ _ ?_ placements [] [] rfl
  intro acc jacc placement hR
  refine foldl_rel (fun (acc : List Part000.Candidate) (jacc : List CandidateJ) =>
      acc = dedupKey (jacc.map toC)) _ _ ?_ (List.range word.length) acc jacc hR
  intro acc2 jacc2 i hR2
  refine foldl_rel (fun (acc : List Part000.Candidate) (jacc : List CandidateJ) =>
      acc = dedupKey (jacc.map toC)) _ _ ?_ (List.range placement.word.length) acc2 jacc2 hR2
  intro acc3 jacc3 j hR3
  dsimp only
  by_cases hij : word.get? i = placement.word.get? j
  · rw [if_pos hij, if_pos hij]
    by_cases hv : Part000.isValidPlacement grid word
        (if !placement.isHorizontal then placement.row + (j : Int) else placement.row - (i : Int))
        (if !placement.isHorizontal then placement.col - (i : Int) else placement.col + (j : Int))
        (!placement.isHorizontal) = true
    · rw [if_pos hv, if_pos hv]
      simp only [List.map_append, List.map_cons, List.map_nil]
      rw [dedupKey_append_one, hR3]
      rfl
    · rw [if_neg hv, if_neg hv]
      exact hR3
  · rw [if_neg hij, if_neg hij]
    exact hR3

theorem chooseBestJ_eq_firstMax (l : List CandidateJ) :
    chooseBestJ l = firstMaxBy scoreJ l :=
  head?_insertionSort_firstMax scoreJ l

theorem chooseBest_eq_general (grid : Grid) (word : Word) (placements : List Placement)
    (hne : ¬ placements.isEmpty = true) (fwh : Bool) :
    Part000.chooseBest (Part000.findValidPlacements grid word placements false fwh) =
      Option.map toC (chooseBestJ (findValidPlacementsJ grid word placements)) := by
  rw [findValidPlacements_general_eq grid word placements hne fwh,
    Part000.chooseBest_eq_firstMax, firstMaxBy_dedupKey _ (key_det_mapped hne),
    firstMaxBy_map, chooseBestJ_eq_firstMax]
  rfl

theorem chooseBest_eq_first (grid : Grid) (word : Word) (placements : List Placement)
    (he : placements.isEmpty = true) :
    Part000.chooseBest (Part000.findValidPlacements grid word placements true true) =
      Option.map toC (chooseBestJ (findValidPlacementsJ grid word placements)) := by
  unfold Part000.findValidPlacements findValidPlacementsJ
  rw [if_pos rfl, if_pos rfl, if_pos he]
  dsimp only
  by_cases hv : Part000.isValidPlacement grid word ((gridHeight grid : Int) / 2)
      (((gridWidth grid : Int) - word.length).fdiv 2) true = true
  · rw [if_pos hv, if_pos hv]
    rfl
  · rw [if_neg hv, if_neg hv]
    rfl

theorem passOneStepJ_eq (st : LayoutResult) (word : Word) :
    passOneStepJ st word = Part000.passOneStep true st word := by
  unfold passOneStepJ Part000.passOneStep
  dsimp only
  have h : Part000.chooseBest (Part000.findValidPlacements st.grid word st.placements
      st.placements.isEmpty true) =
      Option.map toC (chooseBestJ (findValidPlacementsJ st.grid word st.placements)) := by
    cases hpe : st.placements.isEmpty with
    | true => exact chooseBest_eq_first st.grid word st.placements hpe
    | false => exact chooseBest_eq_general st.grid word st.placements (by simp [hpe]) true
  rw [h]
  cases hcb : chooseBestJ (findValidPlacementsJ st.grid word st.placements) with
  | none => rfl
  | some best => rfl

theorem passOneJ_eq (words : List Word) (width height : Nat) :
    words.foldl passOneStepJ ⟨createEmptyGrid width height, [], []⟩ =
      Part000.passOne words width height true := by
  unfold Part000.passOne
  have hfold : ∀ (l : List Word) (st : LayoutResult),
      l.foldl passOneStepJ st = l.foldl (Part000.passOneStep true) st := by
    intro l
    induction l with
    | nil => intro st; rfl
    | cons w ws ih =>
      intro st
      rw [List.foldl_cons, List.foldl_cons, passOneStepJ_eq, ih]
  exact hfold words _

/-- The centered horizontal first-word check fails for this word on this
grid — the situation in which every word stays unplaced. -/
def CenterFail (grid : Grid) (word : Word) : Prop :=
  Part000.isValidPlacement grid word ((gridHeight grid : Int) / 2)
    (((gridWidth grid : Int) - word.length).fdiv 2) true = false

theorem retryStepJ_eq (st : LayoutResult × Bool) (word : Word)
    (h : st.1.placements = [] → CenterFail st.1.grid word) :
    retryStepJ st word = Part000.retryStep st word := by
  unfold retryStepJ Part000.retryStep
  dsimp only
  cases hpe : st.1.placements.isEmpty with
  | false =>
    have hgen := chooseBest_eq_general st.1.grid word st.1.placements (by simp [hpe]) true
    rw [hgen]
    cases hcb : chooseBestJ (findValidPlacementsJ st.1.grid word st.1.placements) with
    | none => rfl
    | some best => rfl
  | true =>
    have hnil : st.1.placements = [] := List.isEmpty_iff.1 hpe
    have hcf : Part000.isValidPlacement st.1.grid word ((gridHeight st.1.grid : Int) / 2)
        (((gridWidth st.1.grid : Int) - word.length).fdiv 2) true = false := h hnil
    have h1 : findValidPlacementsJ st.1.grid word st.1.placements = [] := by
      unfold findValidPlacementsJ
      rw [if_pos hpe]
      dsimp only
      rw [if_neg (by rw [hcf]; simp)]
    have h2 : Part000.findValidPlacements st.1.grid word st.1.placements false true = [] := by
      unfold Part000.findValidPlacements
      rw [if_neg (by simp), hnil]
      rfl
    rw [h1, h2]
    rfl

theorem retrySweepJ_fold_empty (grid : Grid) :
    ∀ (ws acc : List Word), (∀ w ∈ ws, CenterFail grid w) →
      ws.foldl retryStepJ (⟨grid, [], acc⟩, false) = (⟨grid, [], acc ++ ws⟩, false) := by
  intro ws
  induction ws with
  | nil => intro acc _; simp
  | cons w ws ih =>
    intro acc hcf
    rw [List.foldl_cons]
    have hstep : retryStepJ (⟨grid, [], acc⟩, false) w = (⟨grid, [], acc ++ [w]⟩, false) := by
      unfold retryStepJ
      dsimp only
      have h1 : findValidPlacementsJ grid w [] = [] := by
        unfold findValidPlacementsJ
        rw [if_pos (show ([] : List Placement).isEmpty = true from rfl)]
        dsimp only
        rw [if_neg (by rw [hcf w (List.mem_cons_self _ _)]; simp)]
      rw [h1]
      rfl
    rw [hstep, ih (acc ++ [w]) (fun v hv => hcf v (List.mem_cons_of_mem _ hv))]
    simp

theorem retrySweep_fold_empty_p000 (grid : Grid) :
    ∀ (ws acc : List Word),
      ws.foldl Part000.retryStep (⟨grid, [], acc⟩, false) = (⟨grid, [], acc ++ ws⟩, false) := by
  intro ws
  induction ws with
  | nil => intro acc; simp
  | cons w ws ih =>
    intro acc
    rw [List.foldl_cons]
    have hstep : Part000.retryStep (⟨grid, [], acc⟩, false) w = (⟨grid, [], acc ++ [w]⟩, false) := by
      unfold Part000.retryStep
      dsimp only
      have h2 : Part000.findValidPlacements grid w [] false true = [] := by
        unfold Part000.findValidPlacements
        rw [if_neg (by simp)]
        rfl
      rw [h2]
      rfl
    rw [hstep, ih (acc ++ [w])]
    simp

theorem retryStep_placements_ne (st : LayoutResult × Bool) (word : Word)
    (h : st.1.placements ≠ []) : (Part000.retryStep st word).1.placements ≠ [] := by
  unfold Part000.retryStep
  dsimp only
  cases hcb : Part000.chooseBest (Part000.findValidPlacements st.1.grid word
      st.1.placements false true) with
  | none => exact h
  | some best => simp

theorem retrySweepJ_fold_nonempty :
    ∀ (ws : List Word) (st : LayoutResult × Bool), st.1.placements ≠ [] →
      ws.foldl retryStepJ st = ws.foldl Part000.retryStep st ∧
        (ws.foldl Part000.retryStep st).1.placements ≠ [] := by
  intro ws
  induction ws with
  | nil => intro st h; exact ⟨rfl, h⟩
  | cons w ws ih =>
    intro st h
    rw [List.foldl_cons, List.foldl_cons]
    rw [retryStepJ_eq st w (fun hnil => absurd hnil h)]
    exact ih _ (retryStep_placements_ne st w h)

theorem retrySweepJ_eq_nonempty (grid : Grid) (placements : List Placement)
    (hne : placements ≠ []) (unplaced : List Word) :
    retrySweepJ grid placements unplaced = Part000.retrySweep grid placements unplaced ∧
      (Part000.retrySweep grid placements unplaced).1.placements ≠ [] := by
  unfold retrySweepJ Part000.retrySweep
  exact retrySweepJ_fold_nonempty unplaced (⟨grid, placements, []⟩, false) hne

theorem retryLoopJ_eq :
    ∀ (fuel : Nat) (grid : Grid) (placements : List Placement) (unplaced : List Word),
      (placements = [] → ∀ w ∈ unplaced, CenterFail grid w) →
      retryLoopJ fuel grid placements unplaced =
        Part000.retryLoop fuel grid placements unplaced := by
  intro fuel
  induction fuel with
  | zero => intro g p u _; rfl
  | succ fuel ih =>
    intro g p u h
    rw [retryLoopJ, Part000.retryLoop]
    by_cases hu : u.isEmpty = true
    · rw [if_pos hu, if_pos hu]
    · rw [if_neg hu, if_neg hu]
      dsimp only
      by_cases hp : p = []
      · subst hp
        have hJ := retrySweepJ_fold_empty g u [] (h rfl)
        have h0 := retrySweep_fold_empty_p000 g u []
        unfold retrySweepJ Part000.retrySweep
        rw [List.nil_append] at hJ h0
        rw [hJ, h0]
        simp
      · obtain ⟨hsw, hple⟩ := retrySweepJ_eq_nonempty g p hp u
        rw [hsw]
        by_cases hprog : (Part000.retrySweep g p u).2 = true
        · rw [if_pos hprog, if_pos hprog]
          exact ih _ _ _ (fun hnil => absurd hnil hple)
        · rw [if_neg hprog, if_neg hprog]

theorem chooseBest_none_iff (l : List Part000.Candidate) :
    Part000.chooseBest l = none ↔ l = [] := by
  rw [Part000.chooseBest_eq_firstMax]
  exact firstMaxBy_eq_none_iff _ l

theorem passOne_empty_inv (words : List Word) (width height : Nat) :
    (Part000.passOne words width height true).placements = [] →
      ∀ w ∈ (Part000.passOne words width height true).unplacedWords,
        CenterFail (Part000.passOne words width height true).grid w := by
  unfold Part000.passOne
  refine foldl_invariant (fun (st : LayoutResult) => st.placements = [] →
    ∀ w ∈ st.unplacedWords, CenterFail st.grid w) _ words _ ?_ ?_
  · intro _ w hw
    exact absurd hw (List.not_mem_nil w)
  · intro st word hQ
    unfold Part000.passOneStep
    dsimp only
    cases hcb : Part000.chooseBest (Part000.findValidPlacements st.grid word st.placements
        st.placements.isEmpty true) with
    | some best =>
      intro hnil
      simp at hnil
    | none =>
      intro hnil w hw
      dsimp only at hw ⊢
      rcases List.mem_append.1 hw with hw2 | hw2
      · exact hQ hnil w hw2
      · rcases List.mem_singleton.1 hw2 with rfl
        have hempty : st.placements.isEmpty = true := by rw [hnil]; rfl
        rw [hempty] at hcb
        have hlist := (chooseBest_none_iff _).1 hcb
        unfold Part000.findValidPlacements at hlist
        rw [if_pos rfl, if_pos rfl] at hlist
        dsimp only at hlist
        unfold CenterFail
        by_cases hv : Part000.isValidPlacement st.grid w ((gridHeight st.grid : Int) / 2)
            (((gridWidth st.grid : Int) - w.length).fdiv 2) true = true
        · rw [if_pos hv] at hlist
          exact absurd hlist (by simp)
        · simpa using hv

end GenJS

/-- Claim C9: the two generator revisions collapse to one behavior.  For every
word list and dimensions, `generateCrossword` of `crosswordGenerator.js`
returns exactly the `{grid, placements, unplacedWords}` that `part_000`'s
`attemptPlacement` returns on the same words cleaned and sorted longest-first
with a horizontal first word: the textual differences — candidate
de-duplication by `(row, col, isHorizontal)`, the first-word candidate's
missing `distanceFromCenter` field, and the retry loop re-entering the
centered first-word branch while `placements` is empty — never change which
placements are committed. -/
theorem generateCrossword_revisions_agree (words : List Word) (width height : Nat) :
    GenJS.generateCrossword words width height =
      Part000.attemptPlacement (sortByLengthDesc (cleanWords words)) width height true := by
  unfold GenJS.generateCrossword Part000.attemptPlacement
  dsimp only
  rw [GenJS.passOneJ_eq]
  exact GenJS.retryLoopJ_eq _ _ _ _
    (fun hnil => GenJS.passOne_empty_inv (sortByLengthDesc (cleanWords words)) width height hnil)
